import Mathlib

/-!
# MeloTTS (melotts.cpp): chunked synthesis pipeline

A shallow embedding of `src/cpp/melotts.cpp` and theorems about it.

Conventions of the embedding.

* C++ `int`, `int64_t` and `size_t` scalars are unbounded `Int` / `Nat`: signed overflow is
  undefined in C++ and every quantity here is bounded by the size of a tensor held in memory.
* Audio and latent samples (`float`) are only copied by the program, never computed with, so the
  sample type is a parameter `α` with a zero (the fill value of `std::vector<float>(n, 0)`).
* Undefined behaviour (out-of-range `memcpy`, out-of-range iterator, division by zero,
  conversion of a non-finite `double` to `int`) is an explicit `none` / `Flow.undef`.
* The external collaborators (runtime initialisation, lexicon, sentence splitter, encoder,
  decoder engine, audio file) are fields of `Env`; their calls are recorded in a trace. The
  encoder and the decoder output are functions of their inputs; the status of a decoder run
  may also depend on the calls made before it.
* A counted `for` loop whose counter is not written in its body is a recursion on the number of
  remaining iterations, carrying the counter.
-/

namespace MeloTTS

/-! ## `intersperse` (lines 27-33) -/

/-- The loop `for (size_t i = 1; i < result.size(); i += 2) result[i] = lst[i / 2];`.
The unchecked read `lst[i / 2]` is `none` (undefined behaviour) when out of range. -/
def intersperseLoop (lst : List Int) (i : Nat) (result : List Int) : Option (List Int) :=
  if i < result.length then
    match lst[i / 2]? with
    | some v => intersperseLoop lst (i + 2) (result.set i v)
    | none => none
  else some result
termination_by result.length - i
decreasing_by simp_wf; omega

/-- `static std::vector<int> intersperse(const std::vector<int>& lst, int item)`. -/
def intersperse (lst : List Int) (item : Int) : Option (List Int) :=
  intersperseLoop lst 1 (List.replicate (lst.length * 2 + 1) item)

/-! ## Scalars of the decoder window loop (lines 168-193) -/

/-- `sizeof(float)`. -/
def sizeof_float : Nat := 4

/-- `int dec_len = zp_size / zp_shape[1];` (integer division truncating toward zero;
division by zero is undefined). -/
def dec_len (zp_size zp_shape1 : Int) : Option Int :=
  if zp_shape1 = 0 then none else some (Int.tdiv zp_size zp_shape1)

/-- `int dec_slice_num = int(std::ceil(zp_shape[2] * 1.0 / dec_len));`.
The quotient is taken exactly (the `double` quotient of two integers below `2^53` has the same
ceiling as the exact one). With `dec_len = 0` the quotient is infinite or NaN and its
conversion to `int` is undefined. -/
def dec_slice_num (zp_shape2 dec_len : Int) : Option Int :=
  if dec_len = 0 then none else some ⌈(zp_shape2 : ℚ) / (dec_len : ℚ)⌉

/-- Line 179:
`int actual_size = (i + 1) * dec_len < zp_shape[2] ? dec_len : zp_shape[2] - i * dec_len;`. -/
def latent_actual_size (i dec_len zp_shape2 : Int) : Int :=
  if (i + 1) * dec_len < zp_shape2 then dec_len else zp_shape2 - i * dec_len

/-- Line 192: `actual_size = (i + 1) * audio_slice_len < audio_len ? audio_slice_len :
audio_len - i * audio_slice_len;`. -/
def audio_actual_size (i audio_slice_len audio_len : Int) : Int :=
  if (i + 1) * audio_slice_len < audio_len then audio_slice_len
  else audio_len - i * audio_slice_len

/-- Destination offset of channel row `n` in line 181: `zp.data() + n * dec_len`. -/
def dst_offset (n dec_len : Int) : Int := n * dec_len

/-- Source offset of channel row `n` for window `i` in line 181:
`zp_data + n * zp_shape[2] + i * dec_len`. -/
def src_offset (n zp_shape2 i dec_len : Int) : Int := n * zp_shape2 + i * dec_len

/-! ## Buffers -/

section Buffers

variable {α : Type}

/-- `memcpy(dst + dstOff, src + srcOff, sizeof(float) * count)` on buffers of floats.
Undefined (`none`) unless both ranges lie inside their buffers. -/
def memcpy (dst : List α) (dstOff : Int) (src : List α) (srcOff : Int) (count : Int) :
    Option (List α) :=
  if 0 ≤ dstOff ∧ 0 ≤ srcOff ∧ 0 ≤ count ∧
      dstOff + count ≤ dst.length ∧ srcOff + count ≤ src.length then
    some (dst.take dstOff.toNat ++ (src.drop srcOff.toNat).take count.toNat ++
      dst.drop (dstOff + count).toNat)
  else none

/-- Lines 180-182: `for (int n = 0; n < zp_shape[1]; n++) memcpy(zp.data() + n * dec_len,
zp_data + n * zp_shape[2] + i * dec_len, sizeof(float) * actual_size);`.
The first argument counts the remaining iterations, `n` is the loop counter. -/
def copyChannels (zp_data : List α) (zp_shape2 dec_len i actual_size : Int) :
    Nat → Int → List α → Option (List α)
  | 0, _, zp => some zp
  | k + 1, n, zp =>
    match memcpy zp (dst_offset n dec_len) zp_data (src_offset n zp_shape2 i dec_len)
        actual_size with
    | none => none
    | some zp1 => copyChannels zp_data zp_shape2 dec_len i actual_size k (n + 1) zp1

/-- Lines 178-182: the decoder input buffer `zp` built for window `i`. -/
def buildZp [Zero α] (zp_data : List α) (zp_size zp_shape1 zp_shape2 dec_len i : Int) :
    Option (List α) :=
  copyChannels zp_data zp_shape2 dec_len i (latent_actual_size i dec_len zp_shape2)
    zp_shape1.toNat 0 (List.replicate zp_size.toNat 0)

/-- Line 193: `wavlist.insert(wavlist.end(), decoder_output.begin(),
decoder_output.begin() + actual_size);` where `decoder_output` is a vector of
`audio_slice_len` samples. Undefined unless `0 ≤ actual_size ≤ audio_slice_len`. -/
def wavlist_insert (wavlist decoder_output : List α) (actual_size audio_slice_len : Int) :
    Option (List α) :=
  if 0 ≤ actual_size ∧ actual_size ≤ audio_slice_len then
    some (wavlist ++ decoder_output.take actual_size.toNat)
  else none

/-- What a binary file delivers to a read of `float` elements: the complete elements, and,
when its length in bytes is not a multiple of `sizeof(float)`, the value its trailing bytes
leave in the element they are stored into (an indeterminate value in C). -/
structure FloatFile (α : Type) where
  items : List α
  tail : Option α

/-- Line 114: `fread(g.data(), sizeof(float), g.size(), fp);` with the return value dropped.
The complete elements the file delivers overwrite the front of `g`; on a short read the
trailing bytes of the file, when there are some, are stored into the next element; the rest
of `g` is untouched. -/
def fread (g : List α) (file : FloatFile α) : List α :=
  if file.items.length < g.length then
    match file.tail with
    | some v => file.items ++ [v] ++ g.drop (file.items.length + 1)
    | none => file.items ++ g.drop file.items.length
  else file.items.take g.length

end Buffers

/-! ## External collaborators and the trace of their calls -/

/-- The shape returned by `zp_info.GetShape()`: `zp_shape[0]`, `zp_shape[1]`, `zp_shape[2]`. -/
structure Shape where
  d0 : Int
  d1 : Int
  d2 : Int

/-- What `main` reads from `encoder.Run(...)`: the latent tensor data (`encoder_output.at(0)`),
its shape, and the scalar `encoder_output.at(2)[0]`. -/
structure EncoderOutput (α : Type) where
  zp_data : List α
  zp_shape : Shape
  audio_len : Int

/-- A call to an external collaborator: the encoder on its inputs, the decoder on its inputs
together with the status `RunSync` returned, the audio file on the buffer to save. -/
inductive Event (α : Type) where
  | encoderRun (phones tones langids : List Int) (g : List α)
  | decoderRun (zp g : List α) (status : Int)
  | audioSave (wavlist : List α)
  deriving DecidableEq

/-- The environment `main` runs in. -/
structure Env (α : Type) where
  /-- Return value of `AX_SYS_Init()`. -/
  sysInit : Int
  /-- Return value of `AX_ENGINE_Init(&npu_attr)`. -/
  engineInit : Int
  /-- The speaker-embedding file: `none` when `fopen` fails, otherwise what it delivers to a
  read. -/
  gFile : Option (FloatFile α)
  /-- Return value of `encoder.Init(encoder_file)`. -/
  encoderInit : Int
  /-- Return value of `decoder_model.Init(decoder_file)`. -/
  decoderInit : Int
  /-- The sentences returned by `split_sentence(sentence, 10, language)`. -/
  sens : List String
  /-- The lexicon: `lexicon.convert(se, phones_bef, tones_bef)`. -/
  convert : String → List Int × List Int
  /-- The encoder: `encoder.Run(phones, tones, langids, g, ...)` with the fixed scalars. -/
  encoderRun : List Int → List Int → List Int → List α → EncoderOutput α
  /-- Value of `decoder_model.GetInputSize(0)` in bytes. -/
  inputSize : Nat
  /-- Value of `decoder_model.GetOutputSize(0)` in bytes. -/
  outputSize : Nat
  /-- Return value of `decoder_model.RunSync()` for the inputs set (`zp`, `g`); it may depend
  on the calls made before it. -/
  runSync : List (Event α) → List α → List α → Int
  /-- Contents of `decoder_output` after `decoder_model.GetOutput(decoder_output.data(), 0)`. -/
  getOutput : List α → List α → List α
  /-- Return value of `audio_file.save(wav_file)` for the buffer set. -/
  save : List α → Bool

/-- Mutable state of `main` from line 144 on: the accumulator `wavlist` and the calls made. -/
structure State (α : Type) where
  wavlist : List α
  trace : List (Event α)

/-- How a block of `main` ends. -/
inductive Flow (α : Type) where
  /-- Control falls through to the next statement. -/
  | next (st : State α)
  /-- `return status;` from `main`. -/
  | ret (status : Int) (st : State α)
  /-- Undefined behaviour was reached. -/
  | undef (st : State α)

/-- The state a block ends in. -/
def Flow.state {α : Type} : Flow α → State α
  | Flow.next st => st
  | Flow.ret _ st => st
  | Flow.undef st => st

/-- How a run of `main` ends: the exit status (`none` when undefined behaviour was reached)
and the calls made to the collaborators, in order. -/
structure Result (α : Type) where
  status : Option Int
  trace : List (Event α)

section Main

variable {α : Type} [Zero α]

/-- Lines 177-194: the decoder window loop. The first `Nat` counts the remaining iterations
(initially `dec_slice_num`), `i` is the loop counter. -/
def windowLoop (env : Env α) (g : List α) (enc : EncoderOutput α)
    (zp_size dec_len audio_slice_len : Int) : Nat → Int → State α → Flow α
  | 0, _, st => Flow.next st
  | k + 1, i, st =>
    match buildZp enc.zp_data zp_size enc.zp_shape.d1 enc.zp_shape.d2 dec_len i with
    | none => Flow.undef st
    | some zp =>
      let status := env.runSync st.trace zp g
      let st1 : State α := ⟨st.wavlist, st.trace ++ [Event.decoderRun zp g status]⟩
      if status ≠ 0 then Flow.ret (-1) st1
      else
        let decoder_output := env.getOutput zp g
        let actual_size := audio_actual_size i audio_slice_len enc.audio_len
        match wavlist_insert st1.wavlist decoder_output actual_size audio_slice_len with
        | none => Flow.undef st1
        | some wavlist =>
          windowLoop env g enc zp_size dec_len audio_slice_len k (i + 1) ⟨wavlist, st1.trace⟩

/-- Lines 147-196: the body of the sentence loop for sentence `se`. -/
def sentenceBody (env : Env α) (g : List α) (se : String) (st : State α) : Flow α :=
  let phones_bef := (env.convert se).1
  let tones_bef := (env.convert se).2
  match intersperse phones_bef 0, intersperse tones_bef 0 with
  | some phones, some tones =>
    let phone_len := phones.length
    let langids : List Int := List.replicate phone_len 3
    let enc := env.encoderRun phones tones langids g
    let st1 : State α := ⟨st.wavlist, st.trace ++ [Event.encoderRun phones tones langids g]⟩
    let zp_size : Int := ((env.inputSize / sizeof_float : Nat) : Int)
    match dec_len zp_size enc.zp_shape.d1 with
    | none => Flow.undef st1
    | some dec_len =>
      let audio_slice_len : Int := ((env.outputSize / sizeof_float : Nat) : Int)
      match dec_slice_num enc.zp_shape.d2 dec_len with
      | none => Flow.undef st1
      | some dec_slice_num =>
        windowLoop env g enc zp_size dec_len audio_slice_len dec_slice_num.toNat 0 st1
  | _, _ => Flow.undef st

/-- Lines 146-197: `for (auto& se : sens) { ... }`. -/
def sentenceLoop (env : Env α) (g : List α) : List String → State α → Flow α
  | [], st => Flow.next st
  | se :: rest, st =>
    match sentenceBody env g se st with
    | Flow.next st1 => sentenceLoop env g rest st1
    | Flow.ret status st1 => Flow.ret status st1
    | Flow.undef st1 => Flow.undef st1

/-- Lines 200-211: hand `wavlist` to the audio file and save it. -/
def saveAudio (env : Env α) (st : State α) : Result α :=
  let trace := st.trace ++ [Event.audioSave st.wavlist]
  if env.save st.wavlist then ⟨some 0, trace⟩ else ⟨some (-1), trace⟩

/-- Lines 108-114: the speaker embedding `g` after
`std::vector<float> g(256, 0); ... fread(g.data(), sizeof(float), g.size(), fp);`. -/
def loadedG (file : FloatFile α) : List α :=
  fread (List.replicate 256 (0 : α)) file

/-- The function `main` (lines 89-211); argument parsing and printing are left out. -/
def main (env : Env α) : Result α :=
  if env.sysInit ≠ 0 then ⟨some (-1), []⟩
  else if env.engineInit ≠ 0 then ⟨some (-1), []⟩
  else
    match env.gFile with
    | none => ⟨some (-1), []⟩
    | some file =>
      let g := loadedG file
      if env.encoderInit ≠ 0 then ⟨some (-1), []⟩
      else if env.decoderInit ≠ 0 then ⟨some (-1), []⟩
      else
        match sentenceLoop env g env.sens ⟨[], []⟩ with
        | Flow.ret status st => ⟨some status, st.trace⟩
        | Flow.undef st => ⟨none, st.trace⟩
        | Flow.next st => saveAudio env st

end Main

/-! ## Definitions used to state the laws -/

/-- The sum of the audio trim lengths (line 192) of the windows `0 .. W-1`. -/
def audio_trim_sum (W : Nat) (audio_slice_len audio_len : Int) : Int :=
  ((List.range W).map (fun i : Nat => audio_actual_size (i : Int) audio_slice_len audio_len)).sum

/-- The `[start, end)` latent ranges of the windows, in loop order: window `i` starts at
`i * dec_len` and holds `latent_actual_size i` columns. -/
def latent_windows (zp_shape2 dec_len : Int) : Option (List (Int × Int)) :=
  (dec_slice_num zp_shape2 dec_len).map fun W =>
    (List.range W.toNat).map fun i : Nat =>
      ((i : Int) * dec_len, (i : Int) * dec_len + latent_actual_size i dec_len zp_shape2)

section Laws

variable {α : Type}

/-- The buffers `zp` of the decoder calls of a trace, in order. -/
def decoderInputs (trace : List (Event α)) : List (List α) :=
  trace.filterMap fun e =>
    match e with
    | Event.decoderRun zp _ _ => some zp
    | _ => none

/-- The decoder input buffer after the rows `0 .. k-1` have been copied: what position `p`
holds. -/
def zpAfter [Zero α] (zp_data : List α) (T dl i a zp_size k p : Nat) : Option α :=
  if p < zp_size then
    if p / dl < k ∧ p % dl < a then zp_data[p / dl * T + i * dl + p % dl]? else some 0
  else none

/-- The first `actual_size_i` samples of the decoder output for window `i` (empty when the
window buffer cannot be built). -/
def windowChunk [Zero α] (env : Env α) (g : List α) (enc : EncoderOutput α)
    (zp_size dec_len audio_slice_len : Int) (i : Int) : List α :=
  match buildZp enc.zp_data zp_size enc.zp_shape.d1 enc.zp_shape.d2 dec_len i with
  | none => []
  | some zp =>
    (env.getOutput zp g).take (audio_actual_size i audio_slice_len enc.audio_len).toNat

/-- The concatenation, over the window indices `i = 0 .. dec_slice_num - 1` in increasing
order, of the chunks of sentence `se`. -/
def sentenceWav [Zero α] (env : Env α) (g : List α) (se : String) : List α :=
  match intersperse (env.convert se).1 0, intersperse (env.convert se).2 0 with
  | some phones, some tones =>
    let enc := env.encoderRun phones tones (List.replicate phones.length 3) g
    let zp_size : Int := ((env.inputSize / sizeof_float : Nat) : Int)
    let audio_slice_len : Int := ((env.outputSize / sizeof_float : Nat) : Int)
    match dec_len zp_size enc.zp_shape.d1 with
    | none => []
    | some dl =>
      match dec_slice_num enc.zp_shape.d2 dl with
      | none => []
      | some W =>
        (List.range W.toNat).flatMap fun i : Nat =>
          windowChunk env g enc zp_size dl audio_slice_len (i : Int)
  | _, _ => []

/-- The concatenation of the sentence buffers over the sentences, in their order. -/
def expectedWav [Zero α] (env : Env α) (g : List α) : List α :=
  env.sens.flatMap (sentenceWav env g)

/-- An event that lets the run go on: an encoder call, or a decoder call that succeeded. -/
def okEvent : Event α → Prop
  | Event.encoderRun _ _ _ _ => True
  | Event.decoderRun _ _ status => status = 0
  | Event.audioSave _ => False

/-- What a block started in state `st` guarantees about how it ends, `chunk` being the samples
it appends when it falls through: the trace only grows, by calls that went well, except
that a `return` follows one failed decoder call. -/
def FlowInv (st : State α) (chunk : List α) : Flow α → Prop
  | Flow.next st1 =>
    st1.wavlist = st.wavlist ++ chunk ∧
    ∃ evs, st1.trace = st.trace ++ evs ∧ ∀ e ∈ evs, okEvent e
  | Flow.ret status st1 =>
    status = -1 ∧
    ∃ evs zp g s, st1.trace = st.trace ++ evs ++ [Event.decoderRun zp g s] ∧
      (∀ e ∈ evs, okEvent e) ∧ s ≠ 0
  | Flow.undef st1 =>
    ∃ evs, st1.trace = st.trace ++ evs ∧ ∀ e ∈ evs, okEvent e

/-- An encoder output the window loop can consume: at least one channel, a decoder input able
to hold one column of every channel, data of the declared shape, and an `audio_len` of at
least `dec_slice_num - 1` full slices. -/
def WellShaped (zp_size audio_slice_len : Int) (enc : EncoderOutput α) : Prop :=
  1 ≤ enc.zp_shape.d1 ∧ enc.zp_shape.d1 ≤ zp_size ∧
  (enc.zp_data.length : Int) = enc.zp_shape.d1 * enc.zp_shape.d2 ∧
  ∀ W, dec_slice_num enc.zp_shape.d2 (zp_size / enc.zp_shape.d1) = some W →
    (W - 1) * audio_slice_len ≤ enc.audio_len

end Laws

/-! ## Concrete environments -/

/-- A run on two sentences: two channels, three time steps, a decoder input of four floats
(`dec_len = 2`, two windows), a decoder output of three floats and `audio_len = 5`. The
decoder echoes the first three floats of its input. -/
def demoEnv : Env Int where
  sysInit := 0
  engineInit := 0
  gFile := some ⟨List.replicate 256 1, none⟩
  encoderInit := 0
  decoderInit := 0
  sens := ["a", "b"]
  convert := fun _ => ([5, 9], [1, 0])
  encoderRun := fun _ _ _ _ => ⟨[1, 2, 3, 4, 5, 6], ⟨1, 2, 3⟩, 5⟩
  inputSize := 16
  outputSize := 12
  runSync := fun _ _ _ => 0
  getOutput := fun zp _ => zp.take 3
  save := fun _ => true

/-- As `demoEnv`, on one sentence, with a speaker-embedding file of eight bytes: the two
floats `7` and `8` and nothing else. -/
def shortEnv : Env Int :=
  { demoEnv with gFile := some ⟨[7, 8], none⟩, sens := ["a"] }

/-- As `demoEnv`, on one sentence, with a decoder input of one float only, so that
`dec_len = 1 / 2 = 0`. -/
def zeroEnv : Env Int :=
  { demoEnv with inputSize := 4, sens := ["a"] }

/-- As `demoEnv`, with a decoder that fails on its fourth call, the second window of the
second sentence (five calls to the collaborators come before it). -/
def failEnv : Env Int :=
  { demoEnv with runSync := fun trace _ _ => if trace.length = 5 then 1 else 0 }

/-- The scenario of one sentence with phonemes `5, 9, 2`: one channel of `T = 130` latent
columns holding `0, 1, ..., 129`, a decoder input of 64 floats (`dec_len = 64`), a decoder
output of 512 floats and `audio_len = 1100`. -/
def scenarioEnv : Env Int :=
  { demoEnv with
    sens := ["s"]
    convert := fun _ => ([5, 9, 2], [1, 0, 1])
    encoderRun := fun _ _ _ _ =>
      ⟨(List.range 130).map (fun n : Nat => (n : Int)), ⟨1, 1, 130⟩, 1100⟩
    inputSize := 256
    outputSize := 2048
    getOutput := fun zp _ => List.replicate 512 (zp.headD 0) }

/-- As `demoEnv`, on one sentence, with `audio_len = 2` below one full slice while the latent
tensor needs two windows. -/
def lowAudioEnv : Env Int :=
  { demoEnv with
    sens := ["a"]
    encoderRun := fun _ _ _ _ => ⟨[1, 2, 3, 4, 5, 6], ⟨1, 2, 3⟩, 2⟩ }

/-! ## `intersperse` -/

/-- Invariant of the loop of `intersperse`, started at the odd index `2 * k + 1`. -/
theorem intersperseLoop_spec (lst : List Int) :
    ∀ (m k : Nat) (result : List Int), m = lst.length - k → k ≤ lst.length →
      result.length = lst.length * 2 + 1 →
      ∃ r, intersperseLoop lst (2 * k + 1) result = some r ∧ r.length = lst.length * 2 + 1 ∧
        ∀ j, r[j]? = if j % 2 = 1 ∧ 2 * k + 1 ≤ j ∧ j < lst.length * 2 + 1 then lst[j / 2]?
          else result[j]? := by
  intro m
  induction m with
  | zero =>
    intro k result hm hk hlen
    have hk2 : k = lst.length := by omega
    refine ⟨result, ?_, hlen, ?_⟩
    · rw [intersperseLoop, if_neg (by omega)]
    · intro j
      rw [if_neg (by omega)]
  | succ m ih =>
    intro k result hm hk hlen
    have hklt : k < lst.length := by omega
    have hidx : (2 * k + 1) / 2 = k := by omega
    obtain ⟨r, hr, hrlen, hrj⟩ := ih (k + 1) (result.set (2 * k + 1) lst[k]) (by omega) (by omega)
      (by simpa using hlen)
    refine ⟨r, ?_, hrlen, ?_⟩
    · rw [intersperseLoop, if_pos (by omega), hidx, List.getElem?_eq_getElem hklt]
      simpa [Nat.mul_add] using hr
    · intro j
      rw [hrj j]
      by_cases hj : j = 2 * k + 1
      · subst hj
        rw [if_neg (by omega), if_pos (by omega), hidx, List.getElem?_eq_getElem hklt]
        simp [List.getElem?_set, hlen]; omega
      · rw [List.getElem?_set_ne (Ne.symm hj)]
        by_cases h1 : j % 2 = 1 ∧ 2 * (k + 1) + 1 ≤ j ∧ j < lst.length * 2 + 1
        · rw [if_pos h1, if_pos (by omega)]
        · rw [if_neg h1, if_neg (by omega)]

/-- The `intersperse` of the program never leaves its buffers. -/
theorem intersperse_some (lst : List Int) (item : Int) : ∃ r, intersperse lst item = some r := by
  obtain ⟨r, hr, _⟩ := intersperseLoop_spec lst lst.length 0
    (List.replicate (lst.length * 2 + 1) item) (by omega) (by omega) (by simp)
  exact ⟨r, hr⟩

/-- C1, blank-interleaving law: for every list `lst` of length `N` and every blank `item`,
`intersperse lst item` returns a list of length `2N+1` that holds `item` at every even index
`2k` (`k ≤ N`) and `lst[k]` at every odd index `2k+1` (`k < N`); in particular
`intersperse [] 0 = [0]` and `intersperse [5,9,2] 0 = [0,5,0,9,0,2,0]`. -/
theorem intersperse_law (lst : List Int) (item : Int) :
    (∃ r, intersperse lst item = some r ∧ r.length = 2 * lst.length + 1 ∧
      (∀ k, k ≤ lst.length → r[2 * k]? = some item) ∧
      (∀ k, k < lst.length → r[2 * k + 1]? = lst[k]?)) ∧
    intersperse [] 0 = some [0] ∧
    intersperse [5, 9, 2] 0 = some [0, 5, 0, 9, 0, 2, 0] := by
  refine ⟨?_, by decide!, by decide!⟩
  obtain ⟨r, hr, hrlen, hrj⟩ := intersperseLoop_spec lst lst.length 0
    (List.replicate (lst.length * 2 + 1) item) (by omega) (by omega) (by simp)
  refine ⟨r, hr, by omega, ?_, ?_⟩
  · intro k hk
    rw [hrj, if_neg (by omega), List.getElem?_replicate, if_pos (by omega)]
  · intro k hk
    rw [hrj, if_pos (by omega)]
    congr 1
    omega

/-! ## Arithmetic of the window schedule -/

/-- An index is below the ceiling of `T / d` exactly when its window starts before `T`. -/
theorem lt_ceil_div_iff (T d i : Int) (hd : 0 < d) :
    i < ⌈(T : ℚ) / (d : ℚ)⌉ ↔ i * d < T := by
  have hdq : (0 : ℚ) < (d : ℚ) := by exact_mod_cast hd
  rw [Int.lt_ceil, lt_div_iff₀ hdq]
  exact_mod_cast Iff.rfl

/-- With a positive capacity the window count is defined and is the integer ceiling. -/
theorem dec_slice_num_pos (T d : Int) (hd : 0 < d) :
    dec_slice_num T d = some ((T + d - 1) / d) := by
  unfold dec_slice_num
  rw [if_neg (by omega)]
  congr 1
  have h1 : ¬ (⌈(T : ℚ) / (d : ℚ)⌉ * d < T) := by
    rw [← lt_ceil_div_iff T d _ hd]; omega
  have h2 : (⌈(T : ℚ) / (d : ℚ)⌉ - 1) * d < T := by
    rw [← lt_ceil_div_iff T d _ hd]; omega
  have h3 : (⌈(T : ℚ) / (d : ℚ)⌉ - 1) * d = ⌈(T : ℚ) / (d : ℚ)⌉ * d - d := by ring
  apply le_antisymm
  · rw [Int.le_ediv_iff_mul_le hd]; omega
  · have : (T + d - 1) / d < ⌈(T : ℚ) / (d : ℚ)⌉ + 1 := by
      rw [Int.ediv_lt_iff_lt_mul hd]
      have h4 : (⌈(T : ℚ) / (d : ℚ)⌉ + 1) * d = ⌈(T : ℚ) / (d : ℚ)⌉ * d + d := by ring
      omega
    omega

/-- Membership of an index in the window range, in terms of its start offset. -/
theorem lt_dec_slice_num_iff (T d W i : Int) (hd : 0 < d) (hW : dec_slice_num T d = some W) :
    i < W ↔ i * d < T := by
  unfold dec_slice_num at hW
  rw [if_neg (by omega)] at hW
  cases hW
  exact lt_ceil_div_iff T d i hd

/-- The latent copy length is the minimum of the capacity and what is left of the tensor. -/
theorem latent_actual_size_eq_min (i d T : Int) :
    latent_actual_size i d T = min d (T - i * d) := by
  unfold latent_actual_size
  have h : (i + 1) * d = i * d + d := by ring
  rw [h]
  split <;> omega

/-- The audio trim length is the minimum of the slice length and what is left of `audio_len`. -/
theorem audio_actual_size_eq_min (i A L : Int) :
    audio_actual_size i A L = min A (L - i * A) := by
  unfold audio_actual_size
  have h : (i + 1) * A = i * A + A := by ring
  rw [h]
  split <;> omega

/-- The first `W` windows are trimmed to full slices when `audio_len` is at least `W` slices:
their trims sum to `W * audio_slice_len`. -/
theorem audio_trim_sum_full (A L : Int) (hA : 0 ≤ A) :
    ∀ W : Nat, (W : Int) * A ≤ L → audio_trim_sum W A L = W * A := by
  intro W
  induction W with
  | zero => intro _; simp [audio_trim_sum]
  | succ W ih =>
    intro h
    have h1 : ((W : Int) + 1) * A = W * A + A := by ring
    have h2 : ((W + 1 : Nat) : Int) = (W : Int) + 1 := by push_cast; ring
    rw [h2, h1] at h
    have ihW := ih (by omega)
    unfold audio_trim_sum at ihW ⊢
    rw [List.range_succ, List.map_append, List.sum_append, ihW, h2, h1]
    simp only [List.map_cons, List.map_nil, List.sum_cons, List.sum_nil, add_zero]
    rw [audio_actual_size_eq_min]
    omega

/-! ## The audio trim -/

/-- C3 as amended, trim law: for `W ≥ 1` windows, `audio_slice_len > 0` and
`(W - 1) * audio_slice_len ≤ audio_len ≤ W * audio_slice_len`, the trim lengths of line 192
over the windows `0 .. W-1` sum to `audio_len` exactly, and each of them lies in
`[0, audio_slice_len]`. -/
theorem trim_law_amended (W : Nat) (audio_slice_len audio_len : Int) (hW : 1 ≤ W)
    (hA : 0 < audio_slice_len) (hlo : ((W : Int) - 1) * audio_slice_len ≤ audio_len)
    (hhi : audio_len ≤ (W : Int) * audio_slice_len) :
    audio_trim_sum W audio_slice_len audio_len = audio_len ∧
    ∀ i : Nat, i < W →
      0 ≤ audio_actual_size i audio_slice_len audio_len ∧
      audio_actual_size i audio_slice_len audio_len ≤ audio_slice_len := by
  obtain ⟨V, rfl⟩ : ∃ V, W = V + 1 := ⟨W - 1, by omega⟩
  have hc : ((V + 1 : Nat) : Int) = (V : Int) + 1 := by push_cast; ring
  rw [hc] at hlo hhi
  have h1 : ((V : Int) + 1) * audio_slice_len = V * audio_slice_len + audio_slice_len := by ring
  have h0 : ((V : Int) + 1 - 1) * audio_slice_len = V * audio_slice_len := by ring
  rw [h1] at hhi
  rw [h0] at hlo
  constructor
  · have hfull := audio_trim_sum_full audio_slice_len audio_len (by omega) V hlo
    unfold audio_trim_sum at hfull ⊢
    rw [List.range_succ, List.map_append, List.sum_append, hfull]
    simp only [List.map_cons, List.map_nil, List.sum_cons, List.sum_nil, add_zero]
    rw [audio_actual_size_eq_min]
    omega
  · intro i hi
    rw [audio_actual_size_eq_min]
    have hiV : (i : Int) * audio_slice_len ≤ V * audio_slice_len :=
      Int.mul_le_mul_of_nonneg_right (by omega) (by omega)
    omega

/-- Witness of C3 as amended at `audio_slice_len = 512`, `audio_len = 1100`, `W = 3`: the
trims are `512, 512, 76`. -/
theorem trim_law_amended_witness :
    1 ≤ 3 ∧ (0 : Int) < 512 ∧ (((3 : Nat) : Int) - 1) * 512 ≤ 1100 ∧
    (1100 : Int) ≤ ((3 : Nat) : Int) * 512 ∧
    (audio_trim_sum 3 512 1100 = 1100 ∧
      ∀ i : Nat, i < 3 → 0 ≤ audio_actual_size i 512 1100 ∧ audio_actual_size i 512 1100 ≤ 512) ∧
    (List.range 3).map (fun i : Nat => audio_actual_size (i : Int) 512 1100) = [512, 512, 76] :=
  ⟨by decide, by decide, by decide, by decide,
    trim_law_amended 3 512 1100 (by decide) (by decide) (by decide) (by decide), by decide⟩

/-- Counterexample to C3 as stated: with `W = 2`, `audio_slice_len = 512` and
`audio_len = 100 ≤ W * audio_slice_len` the trims of line 192 are `100` and `-412`, whose sum
is `-312`, not `100`. The run `lowAudioEnv` (two windows, `audio_slice_len = 3`,
`audio_len = 2`, trims `2` and `-1`) reaches the second `insert` with a negative length. -/
theorem trim_law_counterexample :
    1 ≤ 2 ∧ (0 : Int) < 512 ∧ (100 : Int) ≤ ((2 : Nat) : Int) * 512 ∧
    (List.range 2).map (fun i : Nat => audio_actual_size (i : Int) 512 100) = [100, -412] ∧
    audio_trim_sum 2 512 100 = -312 ∧ audio_trim_sum 2 512 100 ≠ 100 ∧
    (List.range 2).map (fun i : Nat => audio_actual_size (i : Int) 3 2) = [2, -1] ∧
    (main lowAudioEnv).status = none := by
  refine ⟨by decide, by decide, by decide, by decide, by decide, by decide, by decide, ?_⟩
  decide!

/-- C7, audio trim formula: the trim length computed at line 192 equals
`min(audio_slice_len, audio_len - i * audio_slice_len)` for all integers; and a window whose
buffer is built and decoded appends exactly that many samples of the decoder output (the run
is undefined when the length is negative), whatever `dec_len`, the latent shape and the
latent copy length are. -/
theorem audio_trim_formula (i audio_slice_len audio_len : Int) :
    audio_actual_size i audio_slice_len audio_len
      = min audio_slice_len (audio_len - i * audio_slice_len) ∧
    ∀ (α : Type) [Zero α] (env : Env α) (g : List α) (enc : EncoderOutput α)
      (zp_size dl : Int) (k : Nat) (st : State α) (zp : List α),
      enc.audio_len = audio_len →
      buildZp enc.zp_data zp_size enc.zp_shape.d1 enc.zp_shape.d2 dl i = some zp →
      env.runSync st.trace zp g = 0 →
      windowLoop env g enc zp_size dl audio_slice_len (k + 1) i st =
        if 0 ≤ min audio_slice_len (audio_len - i * audio_slice_len) then
          windowLoop env g enc zp_size dl audio_slice_len k (i + 1)
            ⟨st.wavlist ++ (env.getOutput zp g).take
              (min audio_slice_len (audio_len - i * audio_slice_len)).toNat,
              st.trace ++ [Event.decoderRun zp g 0]⟩
        else Flow.undef ⟨st.wavlist, st.trace ++ [Event.decoderRun zp g 0]⟩ := by
  refine ⟨audio_actual_size_eq_min i audio_slice_len audio_len, ?_⟩
  intro α _ env g enc zp_size dl k st zp hL hb hrun
  have hmin := audio_actual_size_eq_min i audio_slice_len audio_len
  simp only [windowLoop, hb, hrun, hL, wavlist_insert, hmin, ne_eq, not_true_eq_false, if_false]
  by_cases h : 0 ≤ min audio_slice_len (audio_len - i * audio_slice_len)
  · rw [if_pos h, if_pos ⟨h, min_le_left _ _⟩]
  · rw [if_neg h, if_neg (fun hc => h hc.1)]

/-- Witness of C7 on the last window of the example `audio_slice_len = 512`,
`audio_len = 1100`. -/
theorem audio_trim_formula_witness :
    audio_actual_size 2 512 1100 = min 512 (1100 - 2 * 512) ∧ audio_actual_size 2 512 1100 = 76 :=
  ⟨(audio_trim_formula 2 512 1100).1, by decide⟩

/-! ## The strided window copy -/

/-- With a positive channel count and a non-negative size, `dec_len` is the floor quotient. -/
theorem dec_len_pos (zp_size C : Int) (hz : 0 ≤ zp_size) (hC : 0 < C) :
    dec_len zp_size C = some (zp_size / C) := by
  unfold dec_len
  rw [if_neg (by omega), Int.tdiv_eq_ediv hz (by omega)]

/-- C10, copy bounds safety: for `C ≥ 1`, `T ≥ 1` and `zp_size ≥ C` the capacity
`dec_len = zp_size / C` is at least 1 and, for every window `i < dec_slice_num` and channel
`n < C`, the copy length lies in `[1, dec_len]`, the source range lies inside row `n` of the
latent tensor, `[n*T, (n+1)*T)`, hence inside `[0, C*T)`, and the destination range lies
inside `[0, zp_size)` and is disjoint from that of every other channel. -/
theorem copy_bounds (C T zp_size : Int) (hC : 1 ≤ C) (hT : 1 ≤ T) (hz : C ≤ zp_size) :
    ∃ dl W : Int, dec_len zp_size C = some dl ∧ 1 ≤ dl ∧ dec_slice_num T dl = some W ∧
      ∀ i n : Int, 0 ≤ i → i < W → 0 ≤ n → n < C →
        1 ≤ latent_actual_size i dl T ∧ latent_actual_size i dl T ≤ dl ∧
        n * T ≤ src_offset n T i dl ∧
        src_offset n T i dl + latent_actual_size i dl T ≤ (n + 1) * T ∧
        0 ≤ n * T ∧ (n + 1) * T ≤ C * T ∧
        0 ≤ dst_offset n dl ∧ dst_offset n dl + latent_actual_size i dl T ≤ zp_size ∧
        ∀ m : Int, 0 ≤ m → m < C → m ≠ n →
          dst_offset m dl + latent_actual_size i dl T ≤ dst_offset n dl ∨
          dst_offset n dl + latent_actual_size i dl T ≤ dst_offset m dl := by
  have hdl1 : 1 ≤ zp_size / C := by
    rw [Int.le_ediv_iff_mul_le (by omega)]; omega
  have hdlC : zp_size / C * C ≤ zp_size := Int.ediv_mul_le zp_size (by omega)
  have hW := dec_slice_num_pos T (zp_size / C) (by omega)
  refine ⟨zp_size / C, _, dec_len_pos zp_size C (by omega) (by omega), hdl1, hW, ?_⟩
  intro i n hi0 hiW hn0 hnC
  generalize zp_size / C = dl at *
  have h1 := (lt_dec_slice_num_iff T dl _ i (by omega) hW).1 hiW
  have hidl : 0 ≤ i * dl := Int.mul_nonneg hi0 (by omega)
  have hnT : 0 ≤ n * T := Int.mul_nonneg hn0 (by omega)
  have hndl : 0 ≤ n * dl := Int.mul_nonneg hn0 (by omega)
  have hn1T : (n + 1) * T = n * T + T := by ring
  have hn1dl : (n + 1) * dl = n * dl + dl := by ring
  have hCT : (n + 1) * T ≤ C * T := Int.mul_le_mul_of_nonneg_right (by omega) (by omega)
  have hCdl : (n + 1) * dl ≤ C * dl := Int.mul_le_mul_of_nonneg_right (by omega) (by omega)
  have hcomm : dl * C = C * dl := Int.mul_comm dl C
  rw [latent_actual_size_eq_min]
  unfold src_offset dst_offset
  refine ⟨by omega, by omega, by omega, by omega, hnT, hCT, hndl, by omega, ?_⟩
  intro m hm0 hmC hmn
  have hm1dl : (m + 1) * dl = m * dl + dl := by ring
  rcases Int.lt_or_lt_of_ne hmn with h | h
  · left
    have : (m + 1) * dl ≤ n * dl := Int.mul_le_mul_of_nonneg_right (by omega) (by omega)
    omega
  · right
    have : (n + 1) * dl ≤ m * dl := Int.mul_le_mul_of_nonneg_right (by omega) (by omega)
    omega

/-- Witness of C10 at `C = 2`, `T = 3`, `zp_size = 4`. -/
theorem copy_bounds_witness :
    (1 : Int) ≤ 2 ∧ (1 : Int) ≤ 3 ∧ (2 : Int) ≤ 4 ∧
    ∃ dl W : Int, dec_len 4 2 = some dl ∧ 1 ≤ dl ∧ dec_slice_num 3 dl = some W ∧
      ∀ i n : Int, 0 ≤ i → i < W → 0 ≤ n → n < 2 →
        1 ≤ latent_actual_size i dl 3 ∧ latent_actual_size i dl 3 ≤ dl ∧
        n * 3 ≤ src_offset n 3 i dl ∧
        src_offset n 3 i dl + latent_actual_size i dl 3 ≤ (n + 1) * 3 ∧
        0 ≤ n * 3 ∧ (n + 1) * 3 ≤ 2 * 3 ∧
        0 ≤ dst_offset n dl ∧ dst_offset n dl + latent_actual_size i dl 3 ≤ 4 ∧
        ∀ m : Int, 0 ≤ m → m < 2 → m ≠ n →
          dst_offset m dl + latent_actual_size i dl 3 ≤ dst_offset n dl ∨
          dst_offset n dl + latent_actual_size i dl 3 ≤ dst_offset m dl :=
  ⟨by decide, by decide, by decide, copy_bounds 2 3 4 (by decide) (by decide) (by decide)⟩
section Copy

variable {α : Type}

/-- Effect of an in-range `memcpy` with natural-number offsets. -/
theorem memcpy_nat (dst src : List α) (doff soff a : Nat)
    (hd : doff + a ≤ dst.length) (hs : soff + a ≤ src.length) :
    memcpy dst (doff : Int) src (soff : Int) (a : Int) =
      some (dst.take doff ++ (src.drop soff).take a ++ dst.drop (doff + a)) := by
  unfold memcpy
  rw [if_pos (by omega)]
  have h1 : ((doff : Int) + (a : Int)).toNat = doff + a := by omega
  simp [h1]

/-- Reading position `p` of the buffer a `memcpy` leaves. -/
theorem getElem?_memcpy (dst src : List α) (doff soff a p : Nat)
    (hd : doff + a ≤ dst.length) (hs : soff + a ≤ src.length) :
    (dst.take doff ++ (src.drop soff).take a ++ dst.drop (doff + a))[p]? =
      if doff ≤ p ∧ p < doff + a then src[soff + (p - doff)]? else dst[p]? := by
  have hl1 : (dst.take doff).length = doff := by simp; omega
  have hl2 : ((src.drop soff).take a).length = a := by simp; omega
  by_cases h1 : p < doff
  · rw [if_neg (by omega), List.append_assoc, List.getElem?_append_left (by omega),
      List.getElem?_take_of_lt h1]
  · by_cases h2 : p < doff + a
    · rw [if_pos (by omega), List.append_assoc, List.getElem?_append_right (by omega),
        List.getElem?_append_left (by omega), hl1, List.getElem?_take_of_lt (by omega),
        List.getElem?_drop]
    · rw [if_neg (by omega), List.getElem?_append_right (by simp; omega), List.getElem?_drop]
      congr 1
      simp
      omega

/-- Length of the buffer a `memcpy` leaves. -/
theorem length_memcpy (dst src : List α) (doff soff a : Nat)
    (hd : doff + a ≤ dst.length) (hs : soff + a ≤ src.length) :
    (dst.take doff ++ (src.drop soff).take a ++ dst.drop (doff + a)).length = dst.length := by
  simp
  omega

/-- Position `p` lies in the copied part of row `n` exactly when its quotient is `n` and
its remainder is below the copy length. -/
theorem row_iff (dl a n p : Nat) (ha : a ≤ dl) :
    (n * dl ≤ p ∧ p < n * dl + a) ↔ (p / dl = n ∧ p % dl < a) := by
  have hdm : dl * (p / dl) + p % dl = p := Nat.div_add_mod p dl
  constructor
  · rintro ⟨h1, h2⟩
    have hdl : 0 < dl := by omega
    have hq : p / dl = n :=
      Nat.div_eq_of_lt_le h1 (by rw [Nat.succ_mul]; omega)
    rw [hq, Nat.mul_comm] at hdm
    exact ⟨hq, by omega⟩
  · rintro ⟨h1, h2⟩
    rw [h1, Nat.mul_comm] at hdm
    omega

/-- Invariant of the channel loop. -/
theorem copyChannels_spec [Zero α] (zp_data : List α) (C T dl i a zp_size : Nat)
    (ha : a ≤ dl) (hia : i * dl + a ≤ T) (hz : C * dl ≤ zp_size)
    (hdata : zp_data.length = C * T) :
    ∀ (m n : Nat) (zp : List α), n + m = C → zp.length = zp_size →
      (∀ p, zp[p]? = zpAfter zp_data T dl i a zp_size n p) →
      ∃ zp1, copyChannels zp_data (T : Int) (dl : Int) (i : Int) (a : Int) m (n : Int) zp
          = some zp1 ∧ zp1.length = zp_size ∧
        ∀ p, zp1[p]? = zpAfter zp_data T dl i a zp_size C p := by
  intro m
  induction m with
  | zero =>
    intro n zp hn hlen hinv
    have : n = C := by omega
    subst this
    exact ⟨zp, rfl, hlen, hinv⟩
  | succ m ih =>
    intro n zp hn hlen hinv
    have hn1 : (n + 1) * dl ≤ C * dl := Nat.mul_le_mul_right dl (by omega)
    have hn1T : (n + 1) * T ≤ C * T := Nat.mul_le_mul_right T (by omega)
    rw [Nat.succ_mul] at hn1 hn1T
    have hd : n * dl + a ≤ zp.length := by omega
    have hs : n * T + i * dl + a ≤ zp_data.length := by omega
    have hcopy := memcpy_nat zp zp_data (n * dl) (n * T + i * dl) a hd hs
    have hdst : dst_offset (n : Int) (dl : Int) = ((n * dl : Nat) : Int) := by
      unfold dst_offset; push_cast; ring
    have hsrc : src_offset (n : Int) (T : Int) (i : Int) (dl : Int)
        = ((n * T + i * dl : Nat) : Int) := by
      unfold src_offset; push_cast; ring
    obtain ⟨zp1, h1, h2, h3⟩ := ih (n + 1) _ (by omega)
      ((length_memcpy zp zp_data (n * dl) (n * T + i * dl) a hd hs).trans hlen) (by
        intro p
        rw [getElem?_memcpy zp zp_data (n * dl) (n * T + i * dl) a p hd hs, hinv p]
        unfold zpAfter
        by_cases hrow : n * dl ≤ p ∧ p < n * dl + a
        · obtain ⟨hq, hr⟩ := (row_iff dl a n p ha).1 hrow
          have hdm : dl * (p / dl) + p % dl = p := Nat.div_add_mod p dl
          rw [hq, Nat.mul_comm] at hdm
          rw [if_pos hrow, if_pos (by omega), if_pos ⟨by omega, hr⟩, hq]
          congr 1
          omega
        · rw [if_neg hrow]
          have hrow2 : ¬ (p / dl = n ∧ p % dl < a) := fun h => hrow ((row_iff dl a n p ha).2 h)
          by_cases hp : p < zp_size
          · rw [if_pos hp, if_pos hp]
            by_cases hk : p / dl < n ∧ p % dl < a
            · rw [if_pos hk, if_pos ⟨by omega, hk.2⟩]
            · rw [if_neg hk, if_neg (by
                rintro ⟨h4, h5⟩
                by_cases h6 : p / dl = n
                · exact hrow2 ⟨h6, h5⟩
                · exact hk ⟨by omega, h5⟩)]
          · rw [if_neg hp, if_neg hp])
    refine ⟨zp1, ?_, h2, h3⟩
    rw [copyChannels, hdst, hsrc, hcopy]
    simpa using h1

/-- What the buffer built for window `i` holds, over natural numbers. -/
theorem buildZp_spec [Zero α] (zp_data : List α) (C T zp_size i : Nat) (W : Int)
    (hC : 1 ≤ C) (hdl : 1 ≤ zp_size / C) (hdata : zp_data.length = C * T)
    (hW : dec_slice_num (T : Int) ((zp_size / C : Nat) : Int) = some W) (hi : (i : Int) < W) :
    dec_len (zp_size : Int) (C : Int) = some ((zp_size / C : Nat) : Int) ∧
    ∃ zp, buildZp zp_data (zp_size : Int) (C : Int) (T : Int) ((zp_size / C : Nat) : Int) (i : Int)
        = some zp ∧
      zp.length = zp_size ∧
      (∀ n j : Nat, n < C → j < min (zp_size / C) (T - i * (zp_size / C)) →
        n * T + i * (zp_size / C) + j < zp_data.length ∧
        zp[n * (zp_size / C) + j]? = zp_data[n * T + i * (zp_size / C) + j]?) ∧
      (∀ p : Nat, p < zp_size →
        (∀ n j : Nat, n < C → j < min (zp_size / C) (T - i * (zp_size / C)) →
          p ≠ n * (zp_size / C) + j) →
        zp[p]? = some 0) := by
  have hdec : dec_len (zp_size : Int) (C : Int) = some ((zp_size / C : Nat) : Int) := by
    rw [dec_len_pos _ _ (by omega) (by omega)]
    simp
  refine ⟨hdec, ?_⟩
  have hz : C * (zp_size / C) ≤ zp_size := Nat.mul_div_le zp_size C
  generalize zp_size / C = dl at *
  have hlt : (i : Int) * (dl : Int) < (T : Int) :=
    (lt_dec_slice_num_iff T dl W i (by omega) hW).1 hi
  have hlt2 : i * dl < T := by exact_mod_cast hlt
  have hsize : latent_actual_size (i : Int) (dl : Int) (T : Int)
      = ((min dl (T - i * dl) : Nat) : Int) := by
    rw [latent_actual_size_eq_min]
    have : ((i * dl : Nat) : Int) = (i : Int) * (dl : Int) := by push_cast; ring
    omega
  obtain ⟨zp, h1, h2, h3⟩ := copyChannels_spec zp_data C T dl i (min dl (T - i * dl)) zp_size
    (by omega) (by omega) hz hdata C 0 (List.replicate zp_size 0) (by omega) (by simp) (by
      intro p
      unfold zpAfter
      rw [List.getElem?_replicate]
      by_cases hp : p < zp_size
      · rw [if_pos hp, if_pos hp, if_neg (fun h => Nat.not_lt_zero _ h.1)]
      · rw [if_neg hp, if_neg hp])
  refine ⟨zp, ?_, h2, ?_, ?_⟩
  · unfold buildZp
    rw [hsize]
    simpa using h1
  · intro n j hn hj
    have hn1 : (n + 1) * dl ≤ C * dl := Nat.mul_le_mul_right dl (by omega)
    have hn1T : (n + 1) * T ≤ C * T := Nat.mul_le_mul_right T (by omega)
    rw [Nat.succ_mul] at hn1 hn1T
    obtain ⟨hq, hr⟩ := (row_iff dl (min dl (T - i * dl)) n (n * dl + j) (by omega)).1
      ⟨by omega, by omega⟩
    have hdm : dl * ((n * dl + j) / dl) + (n * dl + j) % dl = n * dl + j := Nat.div_add_mod _ dl
    rw [hq, Nat.mul_comm] at hdm
    refine ⟨by omega, ?_⟩
    rw [h3]
    unfold zpAfter
    rw [if_pos (by omega), if_pos ⟨by omega, hr⟩, hq]
    congr 1
    omega
  · intro p hp hne
    rw [h3]
    unfold zpAfter
    rw [if_pos hp, if_neg]
    rintro ⟨h4, h5⟩
    have hdm : dl * (p / dl) + p % dl = p := Nat.div_add_mod p dl
    rw [Nat.mul_comm] at hdm
    exact hne (p / dl) (p % dl) h4 h5 hdm.symm

/-- C5, strided window copy: for `C ≥ 1` channels, `dec_len = zp_size / C ≥ 1`, a latent
tensor of `C * T` values and a window `i < dec_slice_num`, the buffer `zp` built for window
`i` has length `zp_size`, holds `zp_data[n*T + i*dec_len + j]` at `n*dec_len + j` for every
channel `n < C` and every `j < min(dec_len, T - i*dec_len)`, and holds 0 at every other
position. -/
theorem strided_window_copy [Zero α] (zp_data : List α) (C T zp_size i : Nat) (W : Int)
    (hC : 1 ≤ C) (hdl : 1 ≤ zp_size / C) (hdata : zp_data.length = C * T)
    (hW : dec_slice_num (T : Int) ((zp_size / C : Nat) : Int) = some W) (hi : (i : Int) < W) :
    dec_len (zp_size : Int) (C : Int) = some ((zp_size / C : Nat) : Int) ∧
    ∃ zp, buildZp zp_data (zp_size : Int) (C : Int) (T : Int) ((zp_size / C : Nat) : Int) (i : Int)
        = some zp ∧
      zp.length = zp_size ∧
      (∀ n j : Nat, n < C → j < min (zp_size / C) (T - i * (zp_size / C)) →
        n * T + i * (zp_size / C) + j < zp_data.length ∧
        zp[n * (zp_size / C) + j]? = zp_data[n * T + i * (zp_size / C) + j]?) ∧
      (∀ p : Nat, p < zp_size →
        (∀ n j : Nat, n < C → j < min (zp_size / C) (T - i * (zp_size / C)) →
          p ≠ n * (zp_size / C) + j) →
        zp[p]? = some 0) :=
  buildZp_spec zp_data C T zp_size i W hC hdl hdata hW hi

end Copy

/-- Witness of C5 on the second (short) window of a tensor of two channels and three time
steps with `zp_size = 4`: the buffer is `[3, 0, 6, 0]`. -/
theorem strided_window_copy_witness :
    1 ≤ 2 ∧ 1 ≤ 4 / 2 ∧ [1, 2, 3, 4, 5, 6].length = 2 * 3 ∧
    dec_slice_num ((3 : Nat) : Int) ((4 / 2 : Nat) : Int) = some 2 ∧ ((1 : Nat) : Int) < 2 ∧
    buildZp [1, 2, 3, 4, 5, 6] (4 : Int) 2 3 2 1 = some [3, 0, 6, 0] ∧
    (dec_len ((4 : Nat) : Int) ((2 : Nat) : Int) = some ((4 / 2 : Nat) : Int) ∧
    ∃ zp, buildZp ([1, 2, 3, 4, 5, 6] : List Int) ((4 : Nat) : Int) ((2 : Nat) : Int)
        ((3 : Nat) : Int) ((4 / 2 : Nat) : Int) ((1 : Nat) : Int) = some zp ∧
      zp.length = 4 ∧
      (∀ n j : Nat, n < 2 → j < min (4 / 2) (3 - 1 * (4 / 2)) →
        n * 3 + 1 * (4 / 2) + j < [1, 2, 3, 4, 5, 6].length ∧
        zp[n * (4 / 2) + j]? = ([1, 2, 3, 4, 5, 6] : List Int)[n * 3 + 1 * (4 / 2) + j]?) ∧
      (∀ p : Nat, p < 4 →
        (∀ n j : Nat, n < 2 → j < min (4 / 2) (3 - 1 * (4 / 2)) → p ≠ n * (4 / 2) + j) →
        zp[p]? = some 0)) :=
  ⟨by decide, by decide, by decide, by decide!, by decide, by decide!,
    strided_window_copy [1, 2, 3, 4, 5, 6] 2 3 4 1 2 (by decide) (by decide) (by decide)
      (by decide!) (by decide)⟩

/-! ## The loops of `main` -/

section Run

variable {α : Type}

/-- A block that follows a fall-through prefix inherits the invariant. -/
theorem FlowInv.extend (st st1 : State α) (c c1 : List α) (evs0 : List (Event α))
    (hw : st1.wavlist = st.wavlist ++ c) (ht : st1.trace = st.trace ++ evs0)
    (hok : ∀ e ∈ evs0, okEvent e) (r : Flow α) (h : FlowInv st1 c1 r) :
    FlowInv st (c ++ c1) r := by
  cases r with
  | next st2 =>
    obtain ⟨h1, evs, h2, h3⟩ := h
    refine ⟨by rw [h1, hw, List.append_assoc], evs0 ++ evs, by rw [h2, ht, List.append_assoc], ?_⟩
    intro e he
    rcases List.mem_append.1 he with he | he
    · exact hok e he
    · exact h3 e he
  | ret status st2 =>
    obtain ⟨h1, evs, zp, g, s, h2, h3, h4⟩ := h
    refine ⟨h1, evs0 ++ evs, zp, g, s, by rw [h2, ht]; simp, ?_, h4⟩
    intro e he
    rcases List.mem_append.1 he with he | he
    · exact hok e he
    · exact h3 e he
  | undef st2 =>
    obtain ⟨evs, h2, h3⟩ := h
    refine ⟨evs0 ++ evs, by rw [h2, ht, List.append_assoc], ?_⟩
    intro e he
    rcases List.mem_append.1 he with he | he
    · exact hok e he
    · exact h3 e he

/-- The chunks of the `k` windows starting at window `i`. -/
theorem flatMap_range_succ_chunk (f : Int → List α) (k : Nat) (i : Int) :
    (List.range (k + 1)).flatMap (fun j : Nat => f (i + (j : Int))) =
      f i ++ (List.range k).flatMap (fun j : Nat => f (i + 1 + (j : Int))) := by
  rw [List.range_succ_eq_map, List.flatMap_cons, List.flatMap_map]
  congr 1
  · simp
  · congr 1
    funext j
    congr 1
    push_cast
    ring

/-- Invariant of the window loop. -/
theorem windowLoop_inv [Zero α] (env : Env α) (g : List α) (enc : EncoderOutput α)
    (zp_size dl A : Int) :
    ∀ (k : Nat) (i : Int) (st : State α),
      FlowInv st
        ((List.range k).flatMap fun j : Nat => windowChunk env g enc zp_size dl A (i + (j : Int)))
        (windowLoop env g enc zp_size dl A k i st) := by
  intro k
  induction k with
  | zero =>
    intro i st
    exact ⟨by simp, [], by simp, by simp⟩
  | succ k ih =>
    intro i st
    rw [flatMap_range_succ_chunk (windowChunk env g enc zp_size dl A) k i]
    unfold windowLoop
    cases hb : buildZp enc.zp_data zp_size enc.zp_shape.d1 enc.zp_shape.d2 dl i with
    | none => exact ⟨[], by simp, by simp⟩
    | some zp =>
      simp only
      by_cases hrun : env.runSync st.trace zp g ≠ 0
      · rw [if_pos hrun]
        exact ⟨rfl, [], zp, g, _, by simp, by simp, hrun⟩
      · rw [if_neg hrun]
        have hrun0 : env.runSync st.trace zp g = 0 := not_not.1 hrun
        cases hins : wavlist_insert st.wavlist (env.getOutput zp g)
            (audio_actual_size i A enc.audio_len) A with
        | none =>
          refine ⟨[Event.decoderRun zp g (env.runSync st.trace zp g)], rfl, ?_⟩
          intro e he
          rw [List.mem_singleton] at he
          subst he
          exact hrun0
        | some wavlist =>
          simp only
          have hw : wavlist = st.wavlist ++ windowChunk env g enc zp_size dl A i := by
            unfold wavlist_insert at hins
            split at hins
            · cases hins
              unfold windowChunk
              rw [hb]
            · cases hins
          refine FlowInv.extend st
            ⟨wavlist, st.trace ++ [Event.decoderRun zp g (env.runSync st.trace zp g)]⟩ _ _
            [Event.decoderRun zp g (env.runSync st.trace zp g)] hw rfl ?_ _ (ih (i + 1) _)
          intro e he
          rw [List.mem_singleton] at he
          subst he
          exact hrun0

/-- Invariant of the body of the sentence loop. -/
theorem sentenceBody_inv [Zero α] (env : Env α) (g : List α) (se : String) (st : State α) :
    FlowInv st (sentenceWav env g se) (sentenceBody env g se st) := by
  obtain ⟨phones, hp⟩ := intersperse_some (env.convert se).1 0
  obtain ⟨tones, ht⟩ := intersperse_some (env.convert se).2 0
  simp only [sentenceBody, sentenceWav, hp, ht]
  have hev : ∀ e ∈ [Event.encoderRun phones tones (List.replicate phones.length 3) g],
      okEvent e := by
    intro e he
    rw [List.mem_singleton] at he
    subst he
    exact True.intro
  cases hd : dec_len ((env.inputSize / sizeof_float : Nat) : Int)
      (env.encoderRun phones tones (List.replicate phones.length 3) g).zp_shape.d1 with
  | none => exact ⟨_, rfl, hev⟩
  | some dl =>
    simp only
    cases hW : dec_slice_num
        (env.encoderRun phones tones (List.replicate phones.length 3) g).zp_shape.d2 dl with
    | none => exact ⟨_, rfl, hev⟩
    | some W =>
      simp only
      have h := windowLoop_inv env g
        (env.encoderRun phones tones (List.replicate phones.length 3) g)
        ((env.inputSize / sizeof_float : Nat) : Int) dl
        ((env.outputSize / sizeof_float : Nat) : Int) W.toNat 0
        ⟨st.wavlist, st.trace ++
          [Event.encoderRun phones tones (List.replicate phones.length 3) g]⟩
      have h2 := FlowInv.extend st _ [] _ _ (by simp) rfl hev _ h
      simpa using h2

/-- Invariant of the sentence loop. -/
theorem sentenceLoop_inv [Zero α] (env : Env α) (g : List α) :
    ∀ (sens : List String) (st : State α),
      FlowInv st (sens.flatMap (sentenceWav env g)) (sentenceLoop env g sens st) := by
  intro sens
  induction sens with
  | nil =>
    intro st
    exact ⟨by simp, [], by simp, by simp⟩
  | cons se rest ih =>
    intro st
    have hb := sentenceBody_inv env g se st
    unfold sentenceLoop
    rw [List.flatMap_cons]
    cases hr : sentenceBody env g se st with
    | next st1 =>
      rw [hr] at hb
      obtain ⟨h1, evs, h2, h3⟩ := hb
      exact FlowInv.extend st st1 _ _ evs h1 h2 h3 _ (ih st1)
    | ret status st1 =>
      rw [hr] at hb
      obtain ⟨h1, evs, zp, g1, s, h2, h3, h4⟩ := hb
      exact ⟨h1, evs, zp, g1, s, h2, h3, h4⟩
    | undef st1 =>
      rw [hr] at hb
      exact hb

/-- How a run of `main` ends, by cases. -/
theorem main_cases [Zero α] (env : Env α) :
    ((main env).status = some (-1) ∧ (main env).trace = []) ∨
    (∃ evs zp g s, (main env).status = some (-1) ∧
      (main env).trace = evs ++ [Event.decoderRun zp g s] ∧
      (∀ e ∈ evs, okEvent e) ∧ s ≠ 0) ∨
    (∃ evs, (main env).status = none ∧ (main env).trace = evs ∧ ∀ e ∈ evs, okEvent e) ∨
    (∃ file evs, env.gFile = some file ∧
      (main env).status = some (if env.save (expectedWav env (loadedG file)) then 0 else -1) ∧
      (main env).trace = evs ++ [Event.audioSave (expectedWav env (loadedG file))] ∧
      ∀ e ∈ evs, okEvent e) := by
  unfold main
  by_cases h1 : env.sysInit ≠ 0
  · rw [if_pos h1]; exact Or.inl ⟨rfl, rfl⟩
  rw [if_neg h1]
  by_cases h2 : env.engineInit ≠ 0
  · rw [if_pos h2]; exact Or.inl ⟨rfl, rfl⟩
  rw [if_neg h2]
  cases hg : env.gFile with
  | none => exact Or.inl ⟨rfl, rfl⟩
  | some file =>
    simp only
    by_cases h3 : env.encoderInit ≠ 0
    · rw [if_pos h3]; exact Or.inl ⟨rfl, rfl⟩
    rw [if_neg h3]
    by_cases h4 : env.decoderInit ≠ 0
    · rw [if_pos h4]; exact Or.inl ⟨rfl, rfl⟩
    rw [if_neg h4]
    have hinv := sentenceLoop_inv env (loadedG file) env.sens ⟨[], []⟩
    cases hr : sentenceLoop env (loadedG file) env.sens ⟨[], []⟩ with
    | next st1 =>
      rw [hr] at hinv
      obtain ⟨hw, evs, ht, hok⟩ := hinv
      simp only [List.nil_append] at hw ht
      refine Or.inr (Or.inr (Or.inr ⟨file, evs, rfl, ?_, ?_, hok⟩))
      · simp only [saveAudio, expectedWav, hw]
        split <;> rfl
      · simp only [saveAudio, expectedWav, hw, ht]
        split <;> rfl
    | ret status st1 =>
      rw [hr] at hinv
      obtain ⟨hs, evs, zp, g1, s, ht, hok, hfail⟩ := hinv
      simp only [List.nil_append] at ht
      exact Or.inr (Or.inl ⟨evs, zp, g1, s, by rw [hs], ht, hok, hfail⟩)
    | undef st1 =>
      rw [hr] at hinv
      obtain ⟨evs, ht, hok⟩ := hinv
      simp only [List.nil_append] at ht
      exact Or.inr (Or.inr (Or.inl ⟨evs, rfl, ht, hok⟩))

/-- An event that is not `okEvent` in a trace of `okEvent`s followed by one last event is that
last event. -/
theorem eq_last_of_not_ok (evs : List (Event α)) (last e : Event α)
    (hok : ∀ x ∈ evs, okEvent x) (he : e ∈ evs ++ [last]) (hne : ¬ okEvent e) :
    e = last := by
  rcases List.mem_append.1 he with h | h
  · exact absurd (hok e h) hne
  · exact List.mem_singleton.1 h

/-- C8, fatal decoder failure: if a decoder call recorded in the trace of `main` returned
non-zero, then `main` returns `-1`, that call is the last event of the run (no further window
or sentence is processed) and the audio file is never saved; conversely, if `main` returns 0
then every decoder call succeeded and the run ends with a save that succeeded. -/
theorem decoder_failure_fatal [Zero α] (env : Env α) :
    (∀ zp g status, Event.decoderRun zp g status ∈ (main env).trace → status ≠ 0 →
      (main env).status = some (-1) ∧
      (main env).trace.getLast? = some (Event.decoderRun zp g status) ∧
      ∀ w, Event.audioSave w ∉ (main env).trace) ∧
    ((main env).status = some 0 →
      (∀ zp g status, Event.decoderRun zp g status ∈ (main env).trace → status = 0) ∧
      ∃ w, (main env).trace.getLast? = some (Event.audioSave w) ∧ env.save w = true) := by
  rcases main_cases env with ⟨hs, ht⟩ | ⟨evs, zp1, g1, s1, hs, ht, hok, hfail⟩ |
    ⟨evs, hs, ht, hok⟩ |
    ⟨file, evs, -, hs, ht, hok⟩
  · refine ⟨?_, ?_⟩
    · intro zp g status hmem
      rw [ht] at hmem
      cases hmem
    · intro h0
      rw [hs] at h0
      cases h0
  · refine ⟨?_, ?_⟩
    · intro zp g status hmem hne
      rw [ht] at hmem
      have heq := eq_last_of_not_ok evs _ _ hok hmem hne
      refine ⟨hs, by rw [ht, List.getLast?_concat, heq], ?_⟩
      intro w hw
      rw [ht] at hw
      have := eq_last_of_not_ok evs _ _ hok hw (fun h => h)
      cases this
    · intro h0
      rw [hs] at h0
      cases h0
  · refine ⟨?_, ?_⟩
    · intro zp g status hmem hne
      rw [ht] at hmem
      exact absurd (hok _ hmem) hne
    · intro h0
      rw [hs] at h0
      cases h0
  · refine ⟨?_, ?_⟩
    · intro zp g status hmem hne
      rw [ht] at hmem
      have := eq_last_of_not_ok evs _ _ hok hmem hne
      cases this
    · intro h0
      rw [hs] at h0
      refine ⟨?_, _, by rw [ht, List.getLast?_concat], ?_⟩
      · intro zp g status hmem
        rw [ht] at hmem
        rcases List.mem_append.1 hmem with h | h
        · exact hok _ h
        · rw [List.mem_singleton] at h
          cases h
      · by_contra hsave
        rw [if_neg hsave] at h0
        cases h0

theorem saved_is_expectedWav [Zero α] (env : Env α) :
    ∀ w, Event.audioSave w ∈ (main env).trace →
      ∃ file, env.gFile = some file ∧ w = expectedWav env (loadedG file) ∧
        (main env).trace.getLast? = some (Event.audioSave w) := by
  intro w hw
  rcases main_cases env with ⟨hs, ht⟩ | ⟨evs, zp1, g1, s1, hs, ht, hok, hfail⟩ |
    ⟨evs, hs, ht, hok⟩ |
    ⟨file, evs, hg, hs, ht, hok⟩
  · rw [ht] at hw
    cases hw
  · rw [ht] at hw
    have := eq_last_of_not_ok evs _ _ hok hw (fun h => h)
    cases this
  · rw [ht] at hw
    exact absurd (hok _ hw) (fun h => h)
  · rw [ht] at hw
    have h := eq_last_of_not_ok evs _ _ hok hw (fun h => h)
    cases h
    exact ⟨file, hg, rfl, by rw [ht, List.getLast?_concat]⟩

/-- Every trim length of the windows below `W` lies in `[0, audio_slice_len]` when `audio_len`
is at least `W - 1` slices. -/
theorem audio_actual_size_range (W A L i : Int) (hA : 0 ≤ A) (hlo : (W - 1) * A ≤ L)
    (hiW : i < W) :
    0 ≤ audio_actual_size i A L ∧ audio_actual_size i A L ≤ A := by
  rw [audio_actual_size_eq_min]
  have h1 : i * A ≤ (W - 1) * A := Int.mul_le_mul_of_nonneg_right (by omega) hA
  have h2 : (W - 1) * A = W * A - A := by ring
  omega

/-- The window loop falls through when every window can be built, decoded and trimmed. -/
theorem windowLoop_next [Zero α] (env : Env α) (g : List α) (enc : EncoderOutput α)
    (zp_size dl A : Int) (hrun : ∀ tr zp, env.runSync tr zp g = 0) :
    ∀ (k : Nat) (i : Int) (st : State α),
      (∀ j : Nat, j < k →
        (∃ zp, buildZp enc.zp_data zp_size enc.zp_shape.d1 enc.zp_shape.d2 dl (i + (j : Int))
          = some zp) ∧
        0 ≤ audio_actual_size (i + (j : Int)) A enc.audio_len ∧
        audio_actual_size (i + (j : Int)) A enc.audio_len ≤ A) →
      ∃ st1, windowLoop env g enc zp_size dl A k i st = Flow.next st1 := by
  intro k
  induction k with
  | zero =>
    intro i st _
    exact ⟨st, rfl⟩
  | succ k ih =>
    intro i st h
    obtain ⟨⟨zp, hb⟩, h0, h1⟩ := h 0 (by omega)
    simp only [Nat.cast_zero, add_zero] at hb h0 h1
    unfold windowLoop
    rw [hb]
    simp only
    rw [if_neg (not_not.2 (hrun st.trace zp))]
    unfold wavlist_insert
    rw [if_pos ⟨h0, h1⟩]
    simp only
    apply ih
    intro j hj
    have := h (j + 1) (by omega)
    have hc : i + ((j + 1 : Nat) : Int) = i + 1 + (j : Int) := by push_cast; ring
    rw [hc] at this
    exact this

/-- The buffer of window `i` can be built when the tensor has the shape it declares. -/
theorem buildZp_isSome [Zero α] (zp_data : List α) (zp_size C T i W : Int) (hC : 1 ≤ C)
    (hz : C ≤ zp_size) (hdata : (zp_data.length : Int) = C * T)
    (hW : dec_slice_num T (zp_size / C) = some W) (hi0 : 0 ≤ i) (hi : i < W) :
    ∃ zp, buildZp zp_data zp_size C T (zp_size / C) i = some zp := by
  have hdl1 : 1 ≤ zp_size / C := by
    rw [Int.le_ediv_iff_mul_le (by omega)]; omega
  have hlt := (lt_dec_slice_num_iff T (zp_size / C) W i (by omega) hW).1 hi
  have hT : 0 ≤ T := by
    have := Int.mul_nonneg hi0 (by omega : 0 ≤ zp_size / C)
    omega
  lift C to ℕ using (by omega)
  lift zp_size to ℕ using (by omega)
  lift T to ℕ using hT
  lift i to ℕ using hi0
  have hcast : (zp_size : Int) / (C : Int) = ((zp_size / C : Nat) : Int) := by simp
  rw [hcast] at hW hdl1 ⊢
  obtain ⟨-, zp, hzp, -⟩ := buildZp_spec zp_data C T zp_size i W (by omega) (by omega)
    (by exact_mod_cast hdata) hW hi
  exact ⟨zp, hzp⟩

/-- The sentence body falls through when the encoder output of the sentence is well-shaped
and the decoder runs. -/
theorem sentenceBody_next_of [Zero α] (env : Env α) (g : List α) (se : String) (st : State α)
    (phones tones : List Int)
    (hp : intersperse (env.convert se).1 0 = some phones)
    (ht : intersperse (env.convert se).2 0 = some tones)
    (hrun : ∀ tr zp, env.runSync tr zp g = 0)
    (hs : WellShaped ((env.inputSize / sizeof_float : Nat) : Int)
      ((env.outputSize / sizeof_float : Nat) : Int)
      (env.encoderRun phones tones (List.replicate phones.length 3) g)) :
    ∃ st1, sentenceBody env g se st = Flow.next st1 := by
  simp only [sentenceBody, hp, ht]
  generalize env.encoderRun phones tones (List.replicate phones.length 3) g = enc at hs ⊢
  generalize ((env.inputSize / sizeof_float : Nat) : Int) = zp_size at hs ⊢
  have hA : (0 : Int) ≤ ((env.outputSize / sizeof_float : Nat) : Int) := Int.ofNat_nonneg _
  generalize ((env.outputSize / sizeof_float : Nat) : Int) = A at hs hA ⊢
  obtain ⟨hC, hz, hdata, hL⟩ := hs
  have hdl1 : 1 ≤ zp_size / enc.zp_shape.d1 := by
    rw [Int.le_ediv_iff_mul_le (by omega)]; omega
  have hd := dec_len_pos zp_size enc.zp_shape.d1 (by omega) (by omega)
  obtain ⟨W, hW⟩ : ∃ W, dec_slice_num enc.zp_shape.d2 (zp_size / enc.zp_shape.d1) = some W :=
    ⟨_, dec_slice_num_pos enc.zp_shape.d2 _ (by omega)⟩
  simp only [hd, hW]
  apply windowLoop_next env g _ _ _ _ hrun
  intro j hj
  have hj2 : (0 : Int) + (j : Int) < W := by omega
  refine ⟨?_, ?_⟩
  · exact buildZp_isSome _ _ _ _ _ _ hC hz hdata hW (by omega) hj2
  · exact audio_actual_size_range _ _ _ _ hA (hL _ hW) hj2

/-- The sentence body falls through on well-shaped encoder outputs when the decoder runs. -/
theorem sentenceBody_next [Zero α] (env : Env α) (g : List α) (se : String) (st : State α)
    (hrun : ∀ tr zp, env.runSync tr zp g = 0)
    (hshape : ∀ p t l, WellShaped ((env.inputSize / sizeof_float : Nat) : Int)
      ((env.outputSize / sizeof_float : Nat) : Int) (env.encoderRun p t l g)) :
    ∃ st1, sentenceBody env g se st = Flow.next st1 := by
  obtain ⟨phones, hp⟩ := intersperse_some (env.convert se).1 0
  obtain ⟨tones, ht⟩ := intersperse_some (env.convert se).2 0
  exact sentenceBody_next_of env g se st phones tones hp ht hrun
    (hshape phones tones (List.replicate phones.length 3))

/-- The sentence loop falls through when every sentence body does. -/
theorem sentenceLoop_next [Zero α] (env : Env α) (g : List α)
    (hrun : ∀ tr zp, env.runSync tr zp g = 0)
    (hshape : ∀ p t l, WellShaped ((env.inputSize / sizeof_float : Nat) : Int)
      ((env.outputSize / sizeof_float : Nat) : Int) (env.encoderRun p t l g)) :
    ∀ (sens : List String) (st : State α), ∃ st1, sentenceLoop env g sens st = Flow.next st1 := by
  intro sens
  induction sens with
  | nil => intro st; exact ⟨st, rfl⟩
  | cons se rest ih =>
    intro st
    obtain ⟨st1, h1⟩ := sentenceBody_next env g se st hrun hshape
    obtain ⟨st2, h2⟩ := ih st1
    exact ⟨st2, by rw [sentenceLoop, h1]; exact h2⟩

/-- A run whose collaborators all succeed on well-shaped tensors saves the expected
waveform. -/
theorem main_saves [Zero α] (env : Env α) (file : FloatFile α) (hsys : env.sysInit = 0)
    (heng : env.engineInit = 0) (hg : env.gFile = some file) (henc : env.encoderInit = 0)
    (hdec : env.decoderInit = 0) (hrun : ∀ tr zp, env.runSync tr zp (loadedG file) = 0)
    (hshape : ∀ p t l, WellShaped ((env.inputSize / sizeof_float : Nat) : Int)
      ((env.outputSize / sizeof_float : Nat) : Int) (env.encoderRun p t l (loadedG file))) :
    (main env).trace.getLast? = some (Event.audioSave (expectedWav env (loadedG file))) ∧
    (main env).status = some (if env.save (expectedWav env (loadedG file)) then 0 else -1) := by
  obtain ⟨st1, h1⟩ := sentenceLoop_next env (loadedG file) hrun hshape env.sens ⟨[], []⟩
  have hinv := sentenceLoop_inv env (loadedG file) env.sens ⟨[], []⟩
  rw [h1] at hinv
  obtain ⟨hw, -⟩ := hinv
  simp only [List.nil_append] at hw
  simp only [main, hsys, heng, hg, henc, hdec, h1, saveAudio, hw, expectedWav, ne_eq,
    not_true_eq_false, if_false]
  split <;> simp

/-- C4, concatenation order law: whenever `main` hands a buffer to the audio file, that buffer
is the concatenation, over the sentences in their order, of the concatenation, over the window
indices in increasing order, of the first `actual_size_i` samples of the decoder output for
window `i`, and the save is the last event of the run; and the hand-over does happen when
the initialisations and every decoder call succeed on well-shaped encoder outputs. -/
theorem concatenation_order [Zero α] (env : Env α) :
    (∀ w, Event.audioSave w ∈ (main env).trace →
      ∃ file, env.gFile = some file ∧ w = expectedWav env (loadedG file) ∧
        (main env).trace.getLast? = some (Event.audioSave w)) ∧
    (∀ file, env.sysInit = 0 → env.engineInit = 0 → env.gFile = some file →
      env.encoderInit = 0 → env.decoderInit = 0 →
      (∀ tr zp, env.runSync tr zp (loadedG file) = 0) →
      (∀ p t l, WellShaped ((env.inputSize / sizeof_float : Nat) : Int)
        ((env.outputSize / sizeof_float : Nat) : Int) (env.encoderRun p t l (loadedG file))) →
      (main env).trace.getLast? = some (Event.audioSave (expectedWav env (loadedG file))) ∧
      (main env).status = some (if env.save (expectedWav env (loadedG file)) then 0 else -1)) :=
  ⟨saved_is_expectedWav env,
    fun file hsys heng hg henc hdec hrun hshape =>
      main_saves env file hsys heng hg henc hdec hrun hshape⟩

/-- C6 as amended, no zero-capacity guard: when `dec_len` is zero for a sentence, the code
reports no configuration error; it goes on to compute the window count by dividing by
`dec_len`, which is undefined (an infinite or NaN quotient converted to `int`): the sentence
body and the sentence loop end in undefined behaviour right after the encoder call, with no
return status and without running any decoder window. -/
theorem zero_capacity_not_guarded [Zero α] (env : Env α) (g : List α) (se : String)
    (rest : List String) (st : State α) (phones tones : List Int)
    (hp : intersperse (env.convert se).1 0 = some phones)
    (ht : intersperse (env.convert se).2 0 = some tones)
    (hzero : dec_len ((env.inputSize / sizeof_float : Nat) : Int)
      (env.encoderRun phones tones (List.replicate phones.length 3) g).zp_shape.d1 = some 0) :
    dec_slice_num (env.encoderRun phones tones (List.replicate phones.length 3) g).zp_shape.d2 0
      = none ∧
    sentenceBody env g se st = Flow.undef
      ⟨st.wavlist, st.trace ++
        [Event.encoderRun phones tones (List.replicate phones.length 3) g]⟩ ∧
    sentenceLoop env g (se :: rest) st = Flow.undef
      ⟨st.wavlist, st.trace ++
        [Event.encoderRun phones tones (List.replicate phones.length 3) g]⟩ := by
  have hW : dec_slice_num
      (env.encoderRun phones tones (List.replicate phones.length 3) g).zp_shape.d2 0 = none := by
    simp [dec_slice_num]
  have hbody : sentenceBody env g se st = Flow.undef
      ⟨st.wavlist, st.trace ++
        [Event.encoderRun phones tones (List.replicate phones.length 3) g]⟩ := by
    simp only [sentenceBody, hp, ht, hzero, hW]
  exact ⟨hW, hbody, by rw [sentenceLoop, hbody]⟩

end Run

section Schedule

variable {α : Type}

/-- The decoder calls of the window loop: call number `j` is made on the buffer built for
window `i + j`; there are at most `k` of them, and exactly `k` when the loop falls through. -/
theorem windowLoop_trace [Zero α] (env : Env α) (g : List α) (enc : EncoderOutput α)
    (zp_size dl A : Int) :
    ∀ (k : Nat) (i : Int) (st : State α),
      ∃ evs, (windowLoop env g enc zp_size dl A k i st).state.trace = st.trace ++ evs ∧
        evs.length ≤ k ∧
        (∀ j : Nat, j < evs.length → ∃ zp s, evs[j]? = some (Event.decoderRun zp g s) ∧
          buildZp enc.zp_data zp_size enc.zp_shape.d1 enc.zp_shape.d2 dl (i + (j : Int))
            = some zp) ∧
        ((∃ st1, windowLoop env g enc zp_size dl A k i st = Flow.next st1) → evs.length = k) := by
  intro k
  induction k with
  | zero =>
    intro i st
    exact ⟨[], by simp [windowLoop, Flow.state], by simp, by simp, by simp⟩
  | succ k ih =>
    intro i st
    unfold windowLoop
    cases hb : buildZp enc.zp_data zp_size enc.zp_shape.d1 enc.zp_shape.d2 dl i with
    | none =>
      refine ⟨[], by simp [Flow.state], by simp, by simp, ?_⟩
      rintro ⟨st1, h⟩
      cases h
    | some zp =>
      simp only
      have hone : ∀ j : Nat, j < [Event.decoderRun zp g (env.runSync st.trace zp g)].length →
          ∃ zp1 s, [Event.decoderRun zp g (env.runSync st.trace zp g)][j]?
              = some (Event.decoderRun zp1 g s) ∧
            buildZp enc.zp_data zp_size enc.zp_shape.d1 enc.zp_shape.d2 dl (i + (j : Int))
              = some zp1 := by
        intro j hj
        have hj0 : j = 0 := by simpa using hj
        subst hj0
        exact ⟨zp, _, rfl, by simpa using hb⟩
      by_cases hrun : env.runSync st.trace zp g ≠ 0
      · rw [if_pos hrun]
        refine ⟨[Event.decoderRun zp g (env.runSync st.trace zp g)], rfl, by simp, hone, ?_⟩
        rintro ⟨st1, h⟩
        cases h
      · rw [if_neg hrun]
        cases hins : wavlist_insert st.wavlist (env.getOutput zp g)
            (audio_actual_size i A enc.audio_len) A with
        | none =>
          refine ⟨[Event.decoderRun zp g (env.runSync st.trace zp g)], rfl, by simp, hone, ?_⟩
          rintro ⟨st1, h⟩
          cases h
        | some wavlist =>
          simp only
          obtain ⟨evs, h1, h2, h3, h4⟩ := ih (i + 1)
            ⟨wavlist, st.trace ++ [Event.decoderRun zp g (env.runSync st.trace zp g)]⟩
          refine ⟨Event.decoderRun zp g (env.runSync st.trace zp g) :: evs, ?_, ?_, ?_, ?_⟩
          · rw [h1]; simp
          · simp; omega
          · intro j hj
            cases j with
            | zero => exact ⟨zp, env.runSync st.trace zp g, by simp, by simpa using hb⟩
            | succ j =>
              obtain ⟨zp1, s, h5, h6⟩ := h3 j (by simpa using hj)
              refine ⟨zp1, s, by simpa using h5, ?_⟩
              have hc : i + ((j + 1 : Nat) : Int) = i + 1 + (j : Int) := by push_cast; ring
              rw [hc]
              exact h6
          · intro hn
            have := h4 hn
            simp [this]

/-- The decoder calls of one sentence: after the encoder call, call number `j` is made on the
buffer built for window `j`; there are at most `dec_slice_num` of them, and exactly
`dec_slice_num` when the sentence body falls through. -/
theorem sentenceBody_windows [Zero α] (env : Env α) (g : List α) (se : String) (st : State α)
    (phones tones : List Int) (dl W : Int)
    (hp : intersperse (env.convert se).1 0 = some phones)
    (ht : intersperse (env.convert se).2 0 = some tones)
    (hd : dec_len ((env.inputSize / sizeof_float : Nat) : Int)
      (env.encoderRun phones tones (List.replicate phones.length 3) g).zp_shape.d1 = some dl)
    (hW : dec_slice_num
      (env.encoderRun phones tones (List.replicate phones.length 3) g).zp_shape.d2 dl = some W) :
    ∃ evs, (sentenceBody env g se st).state.trace
        = st.trace ++ [Event.encoderRun phones tones (List.replicate phones.length 3) g] ++ evs ∧
      evs.length ≤ W.toNat ∧
      (∀ j : Nat, j < evs.length → ∃ zp s, evs[j]? = some (Event.decoderRun zp g s) ∧
        buildZp (env.encoderRun phones tones (List.replicate phones.length 3) g).zp_data
          ((env.inputSize / sizeof_float : Nat) : Int)
          (env.encoderRun phones tones (List.replicate phones.length 3) g).zp_shape.d1
          (env.encoderRun phones tones (List.replicate phones.length 3) g).zp_shape.d2
          dl (j : Int) = some zp) ∧
      ((∃ st1, sentenceBody env g se st = Flow.next st1) → evs.length = W.toNat) := by
  have hbody : sentenceBody env g se st =
      windowLoop env g (env.encoderRun phones tones (List.replicate phones.length 3) g)
        ((env.inputSize / sizeof_float : Nat) : Int) dl
        ((env.outputSize / sizeof_float : Nat) : Int) W.toNat 0
        ⟨st.wavlist, st.trace ++
          [Event.encoderRun phones tones (List.replicate phones.length 3) g]⟩ := by
    simp only [sentenceBody, hp, ht, hd, hW]
  obtain ⟨evs, h1, h2, h3, h4⟩ := windowLoop_trace env g
    (env.encoderRun phones tones (List.replicate phones.length 3) g)
    ((env.inputSize / sizeof_float : Nat) : Int) dl
    ((env.outputSize / sizeof_float : Nat) : Int) W.toNat 0
    ⟨st.wavlist, st.trace ++ [Event.encoderRun phones tones (List.replicate phones.length 3) g]⟩
  rw [← hbody] at h1 h4
  refine ⟨evs, h1, h2, ?_, h4⟩
  intro j hj
  obtain ⟨zp, s, h5, h6⟩ := h3 j hj
  exact ⟨zp, s, h5, by simpa using h6⟩

end Schedule

/-! ## The window schedule -/

/-- C2, window coverage law: for `T > 0` and `dec_len > 0` the window count is
`W = ceil(T / dec_len) ≥ 1`; every window `i < W` copies a non-empty range
`[i*dec_len, i*dec_len + actual_size_i)` inside `[0, T)`, of full length `dec_len` except
possibly for the last window; each range ends where the next one starts and the last one
ends at `T`; every `t` in `[0, T)` lies in exactly one of the ranges. And the decoder loop of
`main` runs over these windows: for a sentence whose latent tensor has `T` columns, the
decoder calls that follow the encoder call are made, in order, on the buffers built for the
windows `0, 1, ...`; there are at most `W` of them, exactly `W` when the loop runs to its
end, which it does when the decoder succeeds on a well-shaped encoder output. -/
theorem window_coverage (T dec_len : Int) (hT : 0 < T) (hd : 0 < dec_len) :
    ∃ W : Int, dec_slice_num T dec_len = some W ∧ W = ⌈(T : ℚ) / (dec_len : ℚ)⌉ ∧ 1 ≤ W ∧
      (∀ i : Int, 0 ≤ i → i < W →
        0 < latent_actual_size i dec_len T ∧
        latent_actual_size i dec_len T ≤ dec_len ∧
        i * dec_len + latent_actual_size i dec_len T ≤ T ∧
        (i + 1 < W → latent_actual_size i dec_len T = dec_len) ∧
        (i + 1 < W → i * dec_len + latent_actual_size i dec_len T = (i + 1) * dec_len) ∧
        (i + 1 = W → i * dec_len + latent_actual_size i dec_len T = T)) ∧
      (∀ t : Int, 0 ≤ t → t < T →
        ∃! i : Int, (0 ≤ i ∧ i < W) ∧
          i * dec_len ≤ t ∧ t < i * dec_len + latent_actual_size i dec_len T) ∧
      (∀ (α : Type) [Zero α] (env : Env α) (g : List α) (se : String) (st : State α)
        (phones tones : List Int),
        intersperse (env.convert se).1 0 = some phones →
        intersperse (env.convert se).2 0 = some tones →
        (env.encoderRun phones tones (List.replicate phones.length 3) g).zp_shape.d2 = T →
        MeloTTS.dec_len ((env.inputSize / sizeof_float : Nat) : Int)
          (env.encoderRun phones tones (List.replicate phones.length 3) g).zp_shape.d1
          = some dec_len →
        ∃ evs, (sentenceBody env g se st).state.trace
            = st.trace ++ [Event.encoderRun phones tones (List.replicate phones.length 3) g]
              ++ evs ∧
          evs.length ≤ W.toNat ∧
          (∀ j : Nat, j < evs.length → ∃ zp s, evs[j]? = some (Event.decoderRun zp g s) ∧
            buildZp (env.encoderRun phones tones (List.replicate phones.length 3) g).zp_data
              ((env.inputSize / sizeof_float : Nat) : Int)
              (env.encoderRun phones tones (List.replicate phones.length 3) g).zp_shape.d1
              T dec_len (j : Int) = some zp) ∧
          ((∃ st1, sentenceBody env g se st = Flow.next st1) → evs.length = W.toNat) ∧
          ((∀ tr zp, env.runSync tr zp g = 0) →
            WellShaped ((env.inputSize / sizeof_float : Nat) : Int)
              ((env.outputSize / sizeof_float : Nat) : Int)
              (env.encoderRun phones tones (List.replicate phones.length 3) g) →
            evs.length = W.toNat ∧ ∃ st1, sentenceBody env g se st = Flow.next st1)) := by
  have hW : dec_slice_num T dec_len = some ⌈(T : ℚ) / (dec_len : ℚ)⌉ := by
    unfold dec_slice_num; rw [if_neg (by omega)]
  refine ⟨_, hW, rfl, ?_, ?_, ?_, ?_⟩
  · have := (lt_dec_slice_num_iff T dec_len _ 0 hd hW).2 (by omega)
    omega
  · intro i hi0 hiW
    have h1 := (lt_dec_slice_num_iff T dec_len _ i hd hW).1 hiW
    have hmul : (i + 1) * dec_len = i * dec_len + dec_len := by ring
    rw [latent_actual_size_eq_min]
    refine ⟨by omega, by omega, by omega, ?_, ?_, ?_⟩
    · intro h2
      have h3 := (lt_dec_slice_num_iff T dec_len _ (i + 1) hd hW).1 h2
      omega
    · intro h2
      have h3 := (lt_dec_slice_num_iff T dec_len _ (i + 1) hd hW).1 h2
      omega
    · intro h2
      have h3 : ¬ ((i + 1) * dec_len < T) := by
        rw [← lt_dec_slice_num_iff T dec_len _ (i + 1) hd hW]; omega
      omega
  · intro t ht0 htT
    have hlo : t / dec_len * dec_len ≤ t := Int.ediv_mul_le t (by omega)
    have hhi : t < (t / dec_len + 1) * dec_len := Int.lt_ediv_add_one_mul_self t hd
    have hmul : (t / dec_len + 1) * dec_len = t / dec_len * dec_len + dec_len := by ring
    refine ⟨t / dec_len, ⟨⟨Int.ediv_nonneg ht0 (by omega), ?_⟩, hlo, ?_⟩, ?_⟩
    · rw [lt_dec_slice_num_iff T dec_len _ _ hd hW]; omega
    · rw [latent_actual_size_eq_min]; omega
    · rintro j ⟨⟨hj0, hjW⟩, hjlo, hjhi⟩
      rw [latent_actual_size_eq_min] at hjhi
      have hjhi2 : t < (j + 1) * dec_len := by
        have : (j + 1) * dec_len = j * dec_len + dec_len := by ring
        omega
      apply le_antisymm
      · rw [Int.le_ediv_iff_mul_le hd]; exact hjlo
      · have : t / dec_len < j + 1 := by
          rw [Int.ediv_lt_iff_lt_mul hd]; exact hjhi2
        omega
  · intro α _ env g se st phones tones hp ht hT2 hdl
    rw [← hT2] at hW
    obtain ⟨evs, h1, h2, h3, h4⟩ := sentenceBody_windows env g se st phones tones dec_len _
      hp ht hdl hW
    rw [hT2] at h2 h3 h4
    refine ⟨evs, h1, h2, h3, h4, ?_⟩
    intro hrun hs
    have hn := sentenceBody_next_of env g se st phones tones hp ht hrun hs
    exact ⟨h4 hn, hn⟩

/-! ## The laws on concrete runs -/

/-- Witness of C2 at `T = 130`, `dec_len = 64`: the three windows `[0,64)`, `[64,128)`,
`[128,130)`; on `scenarioEnv` the run makes three decoder calls, on the latent columns
`0..63`, `64..127` and `128, 129` followed by zeros, and returns 0. -/
theorem window_coverage_witness :
    (0 : Int) < 130 ∧ (0 : Int) < 64 ∧
    latent_windows 130 64 = some [(0, 64), (64, 128), (128, 130)] ∧
    (main scenarioEnv).status = some 0 ∧
    decoderInputs (main scenarioEnv).trace =
      [(List.range 64).map (fun n : Nat => (n : Int)),
       (List.range 64).map (fun n : Nat => ((n + 64 : Nat) : Int)),
       [128, 129] ++ List.replicate 62 0] ∧
    (∃ W : Int, dec_slice_num 130 64 = some W ∧ W = ⌈((130 : Int) : ℚ) / ((64 : Int) : ℚ)⌉ ∧ 1 ≤ W ∧
      (∀ i : Int, 0 ≤ i → i < W →
        0 < latent_actual_size i 64 130 ∧
        latent_actual_size i 64 130 ≤ 64 ∧
        i * 64 + latent_actual_size i 64 130 ≤ 130 ∧
        (i + 1 < W → latent_actual_size i 64 130 = 64) ∧
        (i + 1 < W → i * 64 + latent_actual_size i 64 130 = (i + 1) * 64) ∧
        (i + 1 = W → i * 64 + latent_actual_size i 64 130 = 130)) ∧
      (∀ t : Int, 0 ≤ t → t < 130 →
        ∃! i : Int, (0 ≤ i ∧ i < W) ∧
          i * 64 ≤ t ∧ t < i * 64 + latent_actual_size i 64 130) ∧
      (∀ (α : Type) [Zero α] (env : Env α) (g : List α) (se : String) (st : State α)
        (phones tones : List Int),
        intersperse (env.convert se).1 0 = some phones →
        intersperse (env.convert se).2 0 = some tones →
        (env.encoderRun phones tones (List.replicate phones.length 3) g).zp_shape.d2 = 130 →
        MeloTTS.dec_len ((env.inputSize / sizeof_float : Nat) : Int)
          (env.encoderRun phones tones (List.replicate phones.length 3) g).zp_shape.d1
          = some 64 →
        ∃ evs, (sentenceBody env g se st).state.trace
            = st.trace ++ [Event.encoderRun phones tones (List.replicate phones.length 3) g]
              ++ evs ∧
          evs.length ≤ W.toNat ∧
          (∀ j : Nat, j < evs.length → ∃ zp s, evs[j]? = some (Event.decoderRun zp g s) ∧
            buildZp (env.encoderRun phones tones (List.replicate phones.length 3) g).zp_data
              ((env.inputSize / sizeof_float : Nat) : Int)
              (env.encoderRun phones tones (List.replicate phones.length 3) g).zp_shape.d1
              130 64 (j : Int) = some zp) ∧
          ((∃ st1, sentenceBody env g se st = Flow.next st1) → evs.length = W.toNat) ∧
          ((∀ tr zp, env.runSync tr zp g = 0) →
            WellShaped ((env.inputSize / sizeof_float : Nat) : Int)
              ((env.outputSize / sizeof_float : Nat) : Int)
              (env.encoderRun phones tones (List.replicate phones.length 3) g) →
            evs.length = W.toNat ∧ ∃ st1, sentenceBody env g se st = Flow.next st1))) :=
  ⟨by decide, by decide, by decide!, by decide!, by decide!,
    window_coverage 130 64 (by decide) (by decide)⟩

/-- Witness of C4 on `demoEnv` (two sentences of two windows each): the buffer saved is
`[1, 2, 4, 3, 0, 1, 2, 4, 3, 0]`. -/
theorem concatenation_order_witness :
    expectedWav demoEnv (loadedG ⟨List.replicate 256 1, none⟩) = [1, 2, 4, 3, 0, 1, 2, 4, 3, 0] ∧
    (main demoEnv).trace.getLast?
      = some (Event.audioSave (expectedWav demoEnv (loadedG ⟨List.replicate 256 1, none⟩))) ∧
    (main demoEnv).status
      = some (if demoEnv.save (expectedWav demoEnv (loadedG ⟨List.replicate 256 1, none⟩)) then 0
          else -1) :=
  ⟨by decide!,
    (concatenation_order demoEnv).2 ⟨List.replicate 256 1, none⟩ rfl rfl rfl rfl rfl (fun _ _ => rfl)
      (fun _ _ _ => ⟨show (1 : Int) ≤ 2 by decide, show (2 : Int) ≤ ((16 / 4 : Nat) : Int) by decide,
        show ((6 : Nat) : Int) = 2 * 3 by decide, fun W hW => by
        have h2 : dec_slice_num (3 : Int) (((16 / 4 : Nat) : Int) / 2) = some 2 := by decide!
        have h3 : some W = some (2 : Int) := hW.symm.trans h2
        cases h3
        show ((2 : Int) - 1) * ((12 / 4 : Nat) : Int) ≤ 5
        decide⟩)⟩

/-- Witness of C6 as amended on `zeroEnv` (`zp_size = 1`, two channels, `dec_len = 0`). -/
theorem zero_capacity_not_guarded_witness :
    intersperse (zeroEnv.convert "a").1 0 = some [0, 5, 0, 9, 0] ∧
    intersperse (zeroEnv.convert "a").2 0 = some [0, 1, 0, 0, 0] ∧
    dec_len ((zeroEnv.inputSize / sizeof_float : Nat) : Int)
      (zeroEnv.encoderRun [0, 5, 0, 9, 0] [0, 1, 0, 0, 0]
        (List.replicate [0, 5, 0, 9, 0].length 3) (List.replicate 256 1)).zp_shape.d1 = some 0 ∧
    (dec_slice_num (zeroEnv.encoderRun [0, 5, 0, 9, 0] [0, 1, 0, 0, 0]
        (List.replicate [0, 5, 0, 9, 0].length 3) (List.replicate 256 1)).zp_shape.d2 0 = none ∧
    sentenceBody zeroEnv (List.replicate 256 1) "a" ⟨[], []⟩ = Flow.undef
      ⟨[], [] ++ [Event.encoderRun [0, 5, 0, 9, 0] [0, 1, 0, 0, 0]
        (List.replicate [0, 5, 0, 9, 0].length 3) (List.replicate 256 1)]⟩ ∧
    sentenceLoop zeroEnv (List.replicate 256 1) ("a" :: []) ⟨[], []⟩ = Flow.undef
      ⟨[], [] ++ [Event.encoderRun [0, 5, 0, 9, 0] [0, 1, 0, 0, 0]
        (List.replicate [0, 5, 0, 9, 0].length 3) (List.replicate 256 1)]⟩) :=
  ⟨by decide!, by decide!, by decide!,
    zero_capacity_not_guarded zeroEnv (List.replicate 256 1) "a" [] ⟨[], []⟩
      [0, 5, 0, 9, 0] [0, 1, 0, 0, 0] (by decide!) (by decide!) (by decide!)⟩

/-- Counterexample to C6 as stated: on `zeroEnv` the capacity `dec_len = 1 / 2` is zero and
the run ends with no exit status at all (undefined behaviour at the computation of the window
count), after the encoder call; it does not terminate with a non-zero status. -/
theorem zero_capacity_counterexample :
    dec_len ((zeroEnv.inputSize / sizeof_float : Nat) : Int) 2 = some 0 ∧
    (main zeroEnv).status = none ∧
    (main zeroEnv).trace = [Event.encoderRun [0, 5, 0, 9, 0] [0, 1, 0, 0, 0] [3, 3, 3, 3, 3]
      (List.replicate 256 1)] ∧
    ¬ ∃ s : Int, s ≠ 0 ∧ (main zeroEnv).status = some s := by
  have h : (main zeroEnv).status = none := by decide!
  refine ⟨by decide!, h, by decide!, ?_⟩
  rintro ⟨s, -, hs⟩
  rw [h] at hs
  cases hs

/-- Witness of C8 on `failEnv`: the decoder fails on the second window of the second
sentence; the run returns `-1` right after that call, the sixth event, and saves nothing,
although the first sentence and the window before were synthesised. -/
theorem decoder_failure_fatal_witness :
    Event.decoderRun [3, 0, 6, 0] (List.replicate 256 1) 1 ∈ (main failEnv).trace ∧
    (1 : Int) ≠ 0 ∧
    (main failEnv).trace.length = 6 ∧
    ((main failEnv).status = some (-1) ∧
      (main failEnv).trace.getLast?
        = some (Event.decoderRun [3, 0, 6, 0] (List.replicate 256 1) 1) ∧
      ∀ w, Event.audioSave w ∉ (main failEnv).trace) :=
  ⟨by decide!, by decide, by decide!,
    (decoder_failure_fatal failEnv).1 [3, 0, 6, 0] (List.replicate 256 1) 1 (by decide!)
      (by decide)⟩

/-- C9, the run on a short speaker-embedding file: on `shortEnv` the file opens and
delivers two floats only, yet `main` does not fail: it returns 0 after the sentence has been
encoded and decoded with the embedding `7, 8, 0, ..., 0` and the audio has been saved. With
one more byte in the file the third element of the embedding holds whatever that byte
leaves there. -/
theorem short_read_run :
    shortEnv.gFile = some ⟨[7, 8], none⟩ ∧
    (main shortEnv).status = some 0 ∧
    (main shortEnv).trace =
      [Event.encoderRun [0, 5, 0, 9, 0] [0, 1, 0, 0, 0] [3, 3, 3, 3, 3]
        (7 :: 8 :: List.replicate 254 0),
       Event.decoderRun [1, 2, 4, 5] (7 :: 8 :: List.replicate 254 0) 0,
       Event.decoderRun [3, 0, 6, 0] (7 :: 8 :: List.replicate 254 0) 0,
       Event.audioSave [1, 2, 4, 3, 0]] ∧
    loadedG (⟨[7, 8], some 9⟩ : FloatFile Int) = 7 :: 8 :: 9 :: List.replicate 253 0 := by
  refine ⟨rfl, by decide!, by decide!, by decide!⟩

end MeloTTS
